import Mathlib

/-!
Verification of the codemogger code-search engine against its specification.

The development shallowly embeds the TypeScript sources:
  src/search/rank.ts      (reciprocal-rank fusion)
  src/index.ts            (orchestrator: index and search entry points)
  src/db/store.ts         (persistent store over the relational engine)
  src/scan/walker.ts      (directory scanner)
  src/chunk/languages.ts  (language registry)
  src/chunk/types.ts      (tree-sitter chunker, pure part)

External collaborators (the embedding function, the tree-sitter parser, the
SQL engine's vector distance operator, the file system, SHA-256, wall-clock
time) are modelled as explicit oracle parameters.  JavaScript numbers are
modelled as rationals.  JavaScript Map objects, which preserve insertion
order, are modelled as association lists.
-/

namespace Codemogger

/-- A search result row, as in the SearchResult interface of src/db/store.ts.
Scores are rationals. -/
structure SearchResult where
  chunkKey : String
  filePath : String
  name : String
  kind : String
  signature : String
  snippet : String
  startLine : Nat
  endLine : Nat
  score : ℚ
deriving DecidableEq, Repr

/-- JS Map.set: if the key exists, update its value in place (insertion order
is preserved); otherwise append the binding at the end. -/
def mapSet {α : Type} (m : List (String × α)) (k : String) (v : α) :
    List (String × α) :=
  match m with
  | [] => [(k, v)]
  | (k0, v0) :: rest =>
    if k0 = k then (k0, v) :: rest else (k0, v0) :: mapSet rest k v

/-- JS Map.get, as an Option. -/
def mapGet {α : Type} (m : List (String × α)) (k : String) : Option α :=
  match m with
  | [] => none
  | (k0, v0) :: rest => if k0 = k then some v0 else mapGet rest k

/-- JS Map.has. -/
def mapHas {α : Type} (m : List (String × α)) (k : String) : Bool :=
  (mapGet m k).isSome

/-- Keys of an association list, in insertion order. -/
def mapKeys {α : Type} (m : List (String × α)) : List String :=
  m.map Prod.fst

/-- One pass of the rrfMerge score accumulation (rank.ts lines 27 to 46):
for the i-th result r (0-based), scores.set(r.chunkKey,
(scores.get(r.chunkKey) ?? 0) + w / (k + i + 1)). -/
def scorePass (w kc : ℚ) (l : List (Nat × SearchResult))
    (sc : List (String × ℚ)) : List (String × ℚ) :=
  l.foldl
    (fun sc p =>
      mapSet sc p.2.chunkKey ((mapGet sc p.2.chunkKey).getD 0 + w / (kc + (p.1 : ℚ) + 1)))
    sc

/-- The fts pass of the data map: data.set(r.chunkKey, r) for every fts row. -/
def dataPassFts (l : List SearchResult) (d : List (String × SearchResult)) :
    List (String × SearchResult) :=
  l.foldl (fun d r => mapSet d r.chunkKey r) d

/-- The vector pass of the data map: fill in a row only when the key is not
already present (the fts payload is preferred). -/
def dataPassVec (l : List SearchResult) (d : List (String × SearchResult)) :
    List (String × SearchResult) :=
  l.foldl (fun d r => if mapHas d r.chunkKey then d else mapSet d r.chunkKey r) d

/-- The comparator of rank.ts line 49, (a, b) => b[1] - a[1]: a comes no
later than b exactly when its score is at least the score of b. -/
def pairGE (a b : String × ℚ) : Prop := a.2 ≥ b.2

instance : DecidableRel pairGE := fun a b => inferInstanceAs (Decidable (a.2 ≥ b.2))

instance : IsTotal (String × ℚ) pairGE := ⟨fun a b => le_total b.2 a.2⟩

instance : IsTrans (String × ℚ) pairGE := ⟨fun _ _ _ h1 h2 => le_trans h2 h1⟩

/-- Sort by score descending; JS Array.prototype.sort is stable, which the
stable insertion sort of Mathlib models exactly. -/
def sortPairsDesc (l : List (String × ℚ)) : List (String × ℚ) :=
  l.insertionSort pairGE

/-- Reciprocal rank fusion with explicit constant and weights
(rrfMerge of src/search/rank.ts). -/
def rrfMergeW (ftsResults vecResults : List SearchResult) (limit : Nat)
    (kc wf wv : ℚ) : List SearchResult :=
  let scores1 := scorePass wf kc ftsResults.enum []
  let scores := scorePass wv kc vecResults.enum scores1
  let data1 := dataPassFts ftsResults []
  let data := dataPassVec vecResults data1
  ((sortPairsDesc scores).take limit).filterMap
    (fun p => (mapGet data p.1).map (fun row => { row with score := p.2 }))

/-- rrfMerge with the default arguments k = 60, ftsWeight = 0.4,
vecWeight = 0.6 of rank.ts. -/
def rrfMerge (ftsResults vecResults : List SearchResult) (limit : Nat) :
    List SearchResult :=
  rrfMergeW ftsResults vecResults limit 60 (2/5) (3/5)

/-- Specification-side weighted reciprocal-rank score of a chunk key:
the sum, over the lists containing the key, of w / (k + rank) with 1-based
ranks (spec section 4.6). -/
def fusedScoreW (fts vec : List SearchResult) (kc wf wv : ℚ) (key : String) : ℚ :=
  (if key ∈ fts.map SearchResult.chunkKey then
    wf / (kc + ((fts.map SearchResult.chunkKey).indexOf key : ℚ) + 1) else 0)
  + (if key ∈ vec.map SearchResult.chunkKey then
    wv / (kc + ((vec.map SearchResult.chunkKey).indexOf key : ℚ) + 1) else 0)

/-- Specification-side fused score at the default constant and weights. -/
def fusedScore (fts vec : List SearchResult) (key : String) : ℚ :=
  fusedScoreW fts vec 60 (2/5) (3/5) key

/-- Specification-side payload row for a key: the text-side row when the key
appears in the text list, otherwise the vector-side row. -/
def payloadRow (fts vec : List SearchResult) (key : String) : Option SearchResult :=
  (fts.find? (fun r => r.chunkKey = key)).orElse
    (fun _ => vec.find? (fun r => r.chunkKey = key))

/-- Replace only the score of a row, keeping the payload fields. -/
def setScore (r : SearchResult) (s : ℚ) : SearchResult :=
  { r with score := s }

/-- A concrete row for witnesses: only the chunk key varies. -/
def sampleRow (key : String) : SearchResult :=
  { chunkKey := key, filePath := "/src/a.ts", name := key, kind := "function",
    signature := "", snippet := "", startLine := 1, endLine := 5, score := 0 }

/-! JavaScript-style string primitives.  Lean's own byte-level String loops
do not reduce inside the kernel, so the embedding works on character lists,
which matches the JS semantics of the operations used by the sources. -/

/-- JS String.prototype.trim: strip whitespace from both ends. -/
def jsTrim (s : String) : String :=
  String.mk (((s.toList.dropWhile Char.isWhitespace).reverse.dropWhile
    Char.isWhitespace).reverse)

/-- JS String.prototype.toLowerCase (ASCII case fold). -/
def jsToLower (s : String) : String :=
  String.mk (s.toList.map Char.toLower)

/-- JS String.prototype.split(sep) for a one-character separator:
returns the (possibly empty) segments between occurrences of sep. -/
def splitOnCharAux (c : Char) : List Char → List (List Char)
  | [] => [[]]
  | x :: xs =>
    match splitOnCharAux c xs with
    | [] => [[]]
    | g :: gs => if x = c then [] :: g :: gs else (x :: g) :: gs

/-- JS split on a single character, as Strings. -/
def splitOnChar (c : Char) (s : String) : List String :=
  (splitOnCharAux c s.toList).map String.mk

/-- Group the maximal runs of characters satisfying keep, discarding the
separators; the runs may be empty at the boundaries. -/
def splitNotKeepAux (keep : Char → Bool) : List Char → List (List Char)
  | [] => [[]]
  | x :: xs =>
    match splitNotKeepAux keep xs with
    | [] => [[]]
    | g :: gs => if keep x then (x :: g) :: gs else [] :: g :: gs

/-- Tokenize a string into the maximal nonempty runs of kept characters. -/
def tokenizeKeep (keep : Char → Bool) (s : String) : List String :=
  ((splitNotKeepAux keep s.toList).filter (fun g => g ≠ [])).map String.mk

/-- JS String.prototype.startsWith. -/
def jsStartsWith (pre s : String) : Bool :=
  pre.toList.isPrefixOf s.toList

/-- JS String.prototype.endsWith. -/
def jsEndsWith (suf s : String) : Bool :=
  suf.toList.isSuffixOf s.toList

/-- JS String.prototype.includes for a single character. -/
def strHasChar (s : String) (c : Char) : Bool :=
  s.toList.contains c

/-- Deduplicate preserving first occurrences. -/
def dedupKeepOrder (l : List String) : List String :=
  l.foldl (fun acc t => if t ∈ acc then acc else acc ++ [t]) []

/-! Query preprocessor (section 4.5 of the spec). -/

/-- Query preprocessing mode: raw passthrough or keyword extraction. -/
inductive QueryMode where
  | raw
  | keywords
deriving DecidableEq

/-- Modelled from the spec: the closed stop-word list of the query
preprocessor.  The source file src/search/query.ts is not present under
src/; section 8.8 of the spec fixes that "the", "a", "an" are stop words, and
section 4.5 calls the list closed; this list extends it with common English
function words.  The claims settled against it depend only on queries all of
whose tokens are stop words or shorter than three characters. -/
def STOP_WORDS : List String :=
  ["the", "a", "an", "is", "are", "was", "were", "of", "to", "in", "on",
   "for", "and", "or", "with", "how", "what", "does", "do"]

/-- Modelled from the spec: preprocessQuery of src/search/query.ts (file not
present under src/).  Section 4.5: raw mode is passthrough; keywords mode
tokenizes on whitespace and punctuation keeping hyphenated terms intact,
case-folds, removes stop words, drops tokens shorter than three characters,
deduplicates preserving order, caps at twelve tokens and rejoins with
spaces. -/
def preprocessQuery (q : String) (mode : QueryMode) : String :=
  match mode with
  | QueryMode.raw => q
  | QueryMode.keywords =>
    let keep := fun c : Char => c.isAlphanum || c = '-' || c = '_'
    let tokens := tokenizeKeep keep q
    let tokens := tokens.map jsToLower
    let tokens := tokens.filter (fun t => ¬ STOP_WORDS.contains t)
    let tokens := tokens.filter (fun t => 3 ≤ t.length)
    let tokens := dedupKeepOrder tokens
    let tokens := tokens.take 12
    String.intercalate " " tokens

/-! Search dispatch (CodeIndex.search of src/index.ts, lines 203 to 234). -/

/-- The three search modes. -/
inductive SearchMode where
  | semantic
  | keyword
  | hybrid
deriving DecidableEq

/-- The optional fields of SearchOptions; absent fields take the defaults
limit = 5, threshold = 0, includeSnippet = false, mode = semantic. -/
structure SearchOptions where
  limit : Option Nat
  threshold : Option ℚ
  includeSnippet : Option Bool
  mode : Option SearchMode

/-- The store read operations the orchestrator dispatches to.  Their engine
internals are external; they are passed as oracles. -/
structure StoreOps where
  vectorSearch : List ℚ → Nat → Bool → List SearchResult
  ftsSearch : String → Nat → Bool → List SearchResult

/-- CodeIndex.search after the health check: resolve option defaults,
dispatch on the mode, and filter by the threshold only when it is positive.
The embedder is the external embedding oracle; the code destructures the
first vector of embedder([query]). -/
def searchImpl (ops : StoreOps) (embedder : List String → List (List ℚ))
    (query : String) (opts : SearchOptions) : List SearchResult :=
  let limit := opts.limit.getD 5
  let threshold := opts.threshold.getD 0
  let includeSnippet := opts.includeSnippet.getD false
  let mode := opts.mode.getD SearchMode.semantic
  if mode = SearchMode.semantic then
    let queryVec := (embedder [query]).getD 0 []
    let results := ops.vectorSearch queryVec limit includeSnippet
    if threshold > 0 then results.filter (fun r => r.score ≥ threshold) else results
  else
    let processed := preprocessQuery query QueryMode.keywords
    if jsTrim processed = "" then []
    else
      let ftsResults := ops.ftsSearch processed limit includeSnippet
      if mode = SearchMode.keyword then
        if threshold > 0 then ftsResults.filter (fun r => r.score ≥ threshold) else ftsResults
      else
        let queryVec := (embedder [query]).getD 0 []
        let vecResults := ops.vectorSearch queryVec limit includeSnippet
        let merged := rrfMerge ftsResults vecResults limit
        if threshold > 0 then merged.filter (fun r => r.score ≥ threshold) else merged

/-- The dispatched (pre-threshold) results of a search: what each mode
produces before the final threshold step. -/
def dispatchResults (ops : StoreOps) (embedder : List String → List (List ℚ))
    (query : String) (opts : SearchOptions) : List SearchResult :=
  let limit := opts.limit.getD 5
  let includeSnippet := opts.includeSnippet.getD false
  let mode := opts.mode.getD SearchMode.semantic
  if mode = SearchMode.semantic then
    ops.vectorSearch ((embedder [query]).getD 0 []) limit includeSnippet
  else
    let processed := preprocessQuery query QueryMode.keywords
    if jsTrim processed = "" then []
    else
      let ftsResults := ops.ftsSearch processed limit includeSnippet
      if mode = SearchMode.keyword then ftsResults
      else
        rrfMerge ftsResults
          (ops.vectorSearch ((embedder [query]).getD 0 []) limit includeSnippet) limit

/-! Search health check (CodeIndex.verifySearchable, src/index.ts lines
241 to 262). -/

/-- A codebase row as reported by Store.listCodebases. -/
structure Codebase where
  id : Nat
  rootPath : String
  name : String
  indexedAt : Nat
  fileCount : Nat
  chunkCount : Nat
deriving DecidableEq, Repr

/-- The environment the health check reads: existence and size of the
database file, and the codebases the store reports. -/
structure HealthEnv where
  dbExists : Bool
  dbFileSize : Nat
  codebases : List Codebase

/-- verifySearchable as a function of the searchVerified flag: returns the
new flag value and the raised error, if any.  The flag is set to true before
any of the health conditions is evaluated. -/
def verifySearchable (searchVerified : Bool) (env : HealthEnv) :
    Bool × Option String :=
  if searchVerified then (searchVerified, none)
  else
    let v := true
    if env.dbExists = false then (v, none)
    else if env.dbFileSize ≤ 1000000 then (v, none)
    else if env.codebases.length = 0 then (v, none)
    else
      let totalChunks := env.codebases.foldl (fun sum c => sum + c.chunkCount) (0 : Nat)
      if totalChunks > 0 then (v, none)
      else (v, some "Database file is large but contains no indexed chunks. The database may be locked by another process, or the WAL file may be missing or inaccessible.")

/-- One full search call: run the health check, then either raise its error
or dispatch the query; returns the updated flag alongside. -/
def searchRun (verified : Bool) (env : HealthEnv) (ops : StoreOps)
    (embedder : List String → List (List ℚ)) (query : String)
    (opts : SearchOptions) : Bool × Except String (List SearchResult) :=
  let checked := verifySearchable verified env
  match checked.2 with
  | some e => (checked.1, Except.error e)
  | none => (checked.1, Except.ok (searchImpl ops embedder query opts))

/-- Number of searches in a sequence that raise the health-check error,
threading the searchVerified flag of one CodeIndex instance. -/
def countHealthErrors (verified : Bool) : List HealthEnv → Nat
  | [] => 0
  | env :: rest =>
    let checked := verifySearchable verified env
    (if checked.2.isSome then 1 else 0) + countHealthErrors checked.1 rest

/-! Language registry (src/chunk/languages.ts).  The wasmPath field only
locates the external parser artifact and is omitted. -/

/-- A language descriptor: canonical name, recognized extensions, the node
kinds treated as top-level definitions, and the splittable subset. -/
structure LanguageConfig where
  name : String
  extensions : List String
  topLevelNodes : List String
  splitNodes : List String
deriving DecidableEq, Repr

def RUST : LanguageConfig :=
  { name := "rust", extensions := [".rs"],
    topLevelNodes := ["function_item", "struct_item", "enum_item", "impl_item",
      "trait_item", "type_item", "const_item", "static_item",
      "macro_definition", "mod_item"],
    splitNodes := ["impl_item", "trait_item", "mod_item"] }

def JAVASCRIPT : LanguageConfig :=
  { name := "javascript", extensions := [".js", ".jsx", ".mjs", ".cjs"],
    topLevelNodes := ["function_declaration", "generator_function_declaration",
      "class_declaration", "variable_declaration", "lexical_declaration",
      "export_statement"],
    splitNodes := ["class_declaration"] }

def TYPESCRIPT : LanguageConfig :=
  { name := "typescript", extensions := [".ts", ".mts", ".cts"],
    topLevelNodes := ["function_declaration", "generator_function_declaration",
      "class_declaration", "abstract_class_declaration", "interface_declaration",
      "type_alias_declaration", "enum_declaration", "variable_declaration",
      "lexical_declaration", "export_statement"],
    splitNodes := ["class_declaration", "abstract_class_declaration",
      "interface_declaration"] }

def TSX : LanguageConfig :=
  { name := "tsx", extensions := [".tsx"],
    topLevelNodes := ["function_declaration", "generator_function_declaration",
      "class_declaration", "abstract_class_declaration", "interface_declaration",
      "type_alias_declaration", "enum_declaration", "variable_declaration",
      "lexical_declaration", "export_statement"],
    splitNodes := ["class_declaration", "abstract_class_declaration",
      "interface_declaration"] }

def CLANG : LanguageConfig :=
  { name := "c", extensions := [".c", ".h"],
    topLevelNodes := ["function_definition", "declaration", "type_definition",
      "enum_specifier", "struct_specifier", "preproc_def",
      "preproc_function_def"],
    splitNodes := [] }

def PYTHON : LanguageConfig :=
  { name := "python", extensions := [".py", ".pyi"],
    topLevelNodes := ["function_definition", "class_definition",
      "decorated_definition"],
    splitNodes := ["class_definition"] }

def GO : LanguageConfig :=
  { name := "go", extensions := [".go"],
    topLevelNodes := ["function_declaration", "method_declaration",
      "type_declaration", "const_declaration", "var_declaration"],
    splitNodes := [] }

def ZIG : LanguageConfig :=
  { name := "zig", extensions := [".zig"],
    topLevelNodes := ["function_declaration", "variable_declaration",
      "test_declaration"],
    splitNodes := [] }

def JAVA : LanguageConfig :=
  { name := "java", extensions := [".java"],
    topLevelNodes := ["class_declaration", "interface_declaration",
      "enum_declaration", "record_declaration"],
    splitNodes := ["class_declaration", "interface_declaration",
      "enum_declaration"] }

def SCALA : LanguageConfig :=
  { name := "scala", extensions := [".scala", ".sc"],
    topLevelNodes := ["class_definition", "object_definition",
      "trait_definition", "function_definition", "val_definition"],
    splitNodes := ["class_definition", "object_definition", "trait_definition"] }

def CPP : LanguageConfig :=
  { name := "cpp", extensions := [".cpp", ".cc", ".cxx", ".hpp", ".hh", ".hxx"],
    topLevelNodes := ["function_definition", "class_specifier",
      "struct_specifier", "enum_specifier", "namespace_definition",
      "template_declaration", "declaration"],
    splitNodes := ["class_specifier", "struct_specifier",
      "namespace_definition"] }

def PHP : LanguageConfig :=
  { name := "php", extensions := [".php"],
    topLevelNodes := ["class_declaration", "interface_declaration",
      "trait_declaration", "function_definition", "enum_declaration"],
    splitNodes := ["class_declaration", "interface_declaration",
      "trait_declaration"] }

def RUBY : LanguageConfig :=
  { name := "ruby", extensions := [".rb"],
    topLevelNodes := ["module", "class", "method", "singleton_method",
      "assignment"],
    splitNodes := ["module", "class"] }

def LANGUAGES : List LanguageConfig :=
  [RUST, JAVASCRIPT, TYPESCRIPT, TSX, CLANG, CPP, PYTHON, GO, ZIG, JAVA,
   SCALA, PHP, RUBY]

/-- The extension of a path: the substring from the last dot on, none when
the path has no dot (filePath.lastIndexOf and slice). -/
def extOf (s : String) : Option String :=
  let cs := s.toList
  if cs.contains '.' then
    some (String.mk ('.' :: (cs.reverse.takeWhile (fun c => c ≠ '.')).reverse))
  else none

/-- detectLanguage of src/chunk/languages.ts: look the extension up in the
registry.  The extension sets of the registry are pairwise disjoint, so the
first match equals the JS Map lookup. -/
def detectLanguage (filePath : String) : Option LanguageConfig :=
  match extOf filePath with
  | none => none
  | some ext => LANGUAGES.find? (fun lang => lang.extensions.contains ext)

/-! Scanner (src/scan/walker.ts). -/

/-- A scanned source file as emitted by the walker. -/
structure ScannedFile where
  absPath : String
  relPath : String
  language : String
  hash : String
  content : String
deriving DecidableEq, Repr

/-- A model file-system entry: a readable regular file with its stat size
and content, a readable directory, a directory whose readdir fails, a file
whose stat or read fails, and any other entry kind (socket, symlink...). -/
inductive FSEntry where
  | file (name : String) (size : Nat) (content : String)
  | dir (name : String) (entries : List FSEntry)
  | baddir (name : String)
  | badfile (name : String)
  | other (name : String)

/-- The name of an entry. -/
def FSEntry.name : FSEntry → String
  | FSEntry.file n _ _ => n
  | FSEntry.dir n _ => n
  | FSEntry.baddir n => n
  | FSEntry.badfile n => n
  | FSEntry.other n => n

/-- The hard-coded directory ignore list of the walker. -/
def ALWAYS_IGNORE : List String :=
  [".git", "node_modules", "target", "build", "dist", ".next", "__pycache__",
   ".tox", ".venv", "venv", ".mypy_cache", ".cargo", ".rustup"]

/-- loadIgnorePatterns of src/scan/walker.ts: keep each trimmed, nonempty,
non-comment line without a wildcard, with one trailing slash stripped. -/
def loadIgnorePatterns (content : String) : List String :=
  (splitOnChar '\n' content).foldl
    (fun patterns line =>
      let trimmed := jsTrim line
      if trimmed = "" then patterns
      else if jsStartsWith "#" trimmed then patterns
      else
        let clean := if jsEndsWith "/" trimmed
          then String.mk trimmed.toList.dropLast else trimmed
        if clean ≠ "" ∧ strHasChar clean '*' = false then patterns ++ [clean]
        else patterns)
    []

/-- The language filter of the index options: reject a language not in the
requested set (langFilter of scanDirectory). -/
def langFilterRejects (langFilter : Option (List String)) (name : String) : Bool :=
  match langFilter with
  | some fl => ¬ fl.contains name
  | none => false

/-- Whether the walk skips an entry by name alone: hidden entries, the
hard-coded ignore list, and the simple gitignore patterns — the checks of
walker.ts lines 79 to 82, applied before the entry kind is inspected. -/
def walkSkipsName (patterns : List String) (name : String) : Bool :=
  (jsStartsWith "." name && name ≠ ".")
    || ALWAYS_IGNORE.contains name
    || patterns.contains name

mutual

/-- The walk of scanDirectory on one directory entry.  dir and rel are the
absolute and root-relative paths of the containing directory (rel is empty
at the root); path joining is modelled as slash concatenation.  The error
text appended by the sources interpolates the system error, which is
external; the model keeps the fixed prefix. -/
def walkEntry (patterns : List String) (langFilter : Option (List String))
    (hashFn : String → String) :
    FSEntry → String → String → List ScannedFile × List String
  | FSEntry.dir name entries, dir, rel =>
    if walkSkipsName patterns name then ([], [])
    else
      walkEntries patterns langFilter hashFn entries (dir ++ "/" ++ name)
        (if rel = "" then name else rel ++ "/" ++ name)
  | FSEntry.baddir name, dir, _ =>
    if walkSkipsName patterns name then ([], [])
    else ([], ["cannot read " ++ (dir ++ "/" ++ name)])
  | FSEntry.other name, _, _ =>
    if walkSkipsName patterns name then ([], []) else ([], [])
  | FSEntry.badfile name, dir, _ =>
    if walkSkipsName patterns name then ([], [])
    else
      match detectLanguage name with
      | none => ([], [])
      | some langConfig =>
        if langFilterRejects langFilter langConfig.name then ([], [])
        else ([], ["cannot read " ++ (dir ++ "/" ++ name)])
  | FSEntry.file name size content, dir, rel =>
    if walkSkipsName patterns name then ([], [])
    else
      match detectLanguage name with
      | none => ([], [])
      | some langConfig =>
        if langFilterRejects langFilter langConfig.name then ([], [])
        else if size = 0 ∨ size > 1000000 then ([], [])
        else
          ([{ absPath := dir ++ "/" ++ name,
              relPath := if rel = "" then name else rel ++ "/" ++ name,
              language := langConfig.name,
              hash := hashFn content,
              content := content }], [])

/-- The walk over the entries of one directory, in order, concatenating the
emitted files and errors. -/
def walkEntries (patterns : List String) (langFilter : Option (List String))
    (hashFn : String → String) :
    List FSEntry → String → String → List ScannedFile × List String
  | [], _, _ => ([], [])
  | e :: rest, dir, rel =>
    let headRes := walkEntry patterns langFilter hashFn e dir rel
    let tailRes := walkEntries patterns langFilter hashFn rest dir rel
    (headRes.1 ++ tailRes.1, headRes.2 ++ tailRes.2)

end

/-- scanDirectory of src/scan/walker.ts: load the simple gitignore patterns
from the .gitignore at the root, when present and readable, then walk.  The
SHA-256 of the content is the external hashFn oracle. -/
def scanDirectory (rootDir : String) (rootEntries : List FSEntry)
    (languages : Option (List String)) (hashFn : String → String) :
    List ScannedFile × List String :=
  let ignorePatterns :=
    match rootEntries.findSome? (fun e =>
      match e with
      | FSEntry.file name _ content =>
        if name = ".gitignore" then some content else none
      | _ => none) with
    | some content => loadIgnorePatterns content
    | none => []
  walkEntries ignorePatterns languages hashFn rootEntries rootDir ""

/-! Chunk values (src/chunk/types.ts). -/

/-- A chunk as produced by the chunker. -/
structure CodeChunk where
  chunkKey : String
  filePath : String
  language : String
  kind : String
  name : String
  signature : String
  snippet : String
  startLine : Nat
  endLine : Nat
  fileHash : String
deriving DecidableEq, Repr

/-! Store state (src/db/schema.ts and src/db/store.ts).  The relational
engine is modelled by explicit tables; the vector8 quantization is
engine-side, so the embedding column holds the raw vector or NULL. -/

/-- A row of the chunks table. -/
structure ChunkRow where
  codebaseId : Nat
  filePath : String
  chunkKey : String
  language : String
  kind : String
  name : String
  signature : String
  snippet : String
  startLine : Nat
  endLine : Nat
  fileHash : String
  indexedAt : Nat
  embedding : Option (List ℚ)
  embeddingModel : String

/-- A row of the indexed_files table. -/
structure FileRow where
  codebaseId : Nat
  filePath : String
  fileHash : String
  chunkCount : Nat
  indexedAt : Nat
deriving DecidableEq, Repr

/-- A row of the codebases table. -/
structure CodebaseRow where
  id : Nat
  rootPath : String
  name : String
  indexedAt : Nat
deriving DecidableEq, Repr

/-- The modelled relational state.  The per-codebase fts tables live in the
external text-index engine and are rebuilt from the chunks table; they are
not part of the modelled state. -/
structure DB where
  codebases : List CodebaseRow
  chunks : List ChunkRow
  files : List FileRow

/-- getOrCreateCodebase: return the id of the existing row for the root
path, or insert a fresh row whose autoincrement id is one past the largest
and whose default name is the last path segment. -/
def getOrCreateCodebase (db : DB) (rootPath : String) (now : Nat) : DB × Nat :=
  match db.codebases.find? (fun c => c.rootPath = rootPath) with
  | some c => (db, c.id)
  | none =>
    let newId := (db.codebases.foldl (fun m c => max m c.id) 0) + 1
    let nm := ((splitOnChar '/' rootPath).getLast?).getD ""
    let row : CodebaseRow := { id := newId, rootPath := rootPath, name := nm, indexedAt := now }
    ({ db with codebases := db.codebases ++ [row] }, newId)

/-- getFileHash: the stored hash of a file of a codebase, if any. -/
def getFileHash (db : DB) (cid : Nat) (filePath : String) : Option String :=
  (db.files.find? (fun f => f.codebaseId = cid ∧ f.filePath = filePath)).map
    (fun f => f.fileHash)

/-- The DELETE statement of batchUpsertAllFileChunks: remove the chunks of
one file of one codebase. -/
def dbDeleteChunks (db : DB) (cid : Nat) (filePath : String) : DB :=
  let kept := db.chunks.filter (fun c => ¬ (c.codebaseId = cid ∧ c.filePath = filePath))
  { db with chunks := kept }

/-- The INSERT ... ON CONFLICT(chunk_key) DO UPDATE statement: a fresh row
starts with NULL embedding and empty embedding_model (the schema defaults);
a conflicting row is updated in place, keeping its file_path (the update
list omits it) and clearing embedding and embedding_model. -/
def updateChunkRowFrom (row : ChunkRow) (cid : Nat) (ch : CodeChunk) (now : Nat) : ChunkRow :=
  { row with
    codebaseId := cid, language := ch.language, kind := ch.kind,
    name := ch.name, signature := ch.signature, snippet := ch.snippet,
    startLine := ch.startLine, endLine := ch.endLine,
    fileHash := ch.fileHash, indexedAt := now,
    embedding := none, embeddingModel := "" }

def freshChunkRow (cid : Nat) (ch : CodeChunk) (now : Nat) : ChunkRow :=
  { codebaseId := cid, filePath := ch.filePath, chunkKey := ch.chunkKey,
    language := ch.language, kind := ch.kind, name := ch.name,
    signature := ch.signature, snippet := ch.snippet,
    startLine := ch.startLine, endLine := ch.endLine,
    fileHash := ch.fileHash, indexedAt := now,
    embedding := none, embeddingModel := "" }

def dbInsertChunkOnConflict (db : DB) (cid : Nat) (ch : CodeChunk) (now : Nat) : DB :=
  if db.chunks.any (fun row => row.chunkKey = ch.chunkKey) then
    let updated := db.chunks.map (fun row =>
      if row.chunkKey = ch.chunkKey then updateChunkRowFrom row cid ch now else row)
    { db with chunks := updated }
  else
    { db with chunks := db.chunks ++ [freshChunkRow cid ch now] }

/-- The INSERT ... ON CONFLICT(codebase_id, file_path) DO UPDATE statement
on indexed_files. -/
def dbUpsertFileRow (db : DB) (cid : Nat) (filePath fileHash : String)
    (chunkCount now : Nat) : DB :=
  if db.files.any (fun f => f.codebaseId = cid ∧ f.filePath = filePath) then
    let updated := db.files.map (fun f =>
      if f.codebaseId = cid ∧ f.filePath = filePath then
        { f with fileHash := fileHash, chunkCount := chunkCount, indexedAt := now }
      else f)
    { db with files := updated }
  else
    let row : FileRow :=
      { codebaseId := cid, filePath := filePath, fileHash := fileHash,
        chunkCount := chunkCount, indexedAt := now }
    { db with files := db.files ++ [row] }

/-- One file of a batch upsert: the path, the new content hash and the new
chunks. -/
structure FileChunks where
  filePath : String
  fileHash : String
  chunks : List CodeChunk
deriving DecidableEq, Repr

/-- The statement sequence of batchUpsertAllFileChunks: for each file,
delete its chunks, insert every new chunk, upsert the indexed_files row. -/
def batchStmts (cid : Nat) (now : Nat) (fcs : List FileChunks) : List (DB → DB) :=
  (fcs.map (fun fc =>
    (fun st => dbDeleteChunks st cid fc.filePath)
      :: fc.chunks.map (fun ch => fun st => dbInsertChunkOnConflict st cid ch now)
      ++ [fun st => dbUpsertFileRow st cid fc.filePath fc.fileHash fc.chunks.length now])).flatten

/-- Execute numbered statements against the storage engine; the oracle
decides which statement raises a storage-fatal error (constraint violation,
I/O error...). -/
def execStmts (oracle : Nat → Bool) : Nat → List (DB → DB) → DB → Except String DB
  | _, [], st => Except.ok st
  | i, stmt :: rest, st =>
    if oracle i then Except.error "storage error"
    else execStmts oracle (i + 1) rest (stmt st)

/-- batchUpsertAllFileChunks of src/db/store.ts: BEGIN snapshots the state,
the statements run in order, COMMIT keeps the result; any failure runs
ROLLBACK, restoring the snapshot, and propagates the error. -/
def batchUpsertAllFileChunks (oracle : Nat → Bool) (db : DB) (cid : Nat)
    (fcs : List FileChunks) (now : Nat) : Except String Unit × DB :=
  match execStmts oracle 0 (batchStmts cid now fcs) db with
  | Except.ok st2 => (Except.ok (), st2)
  | Except.error e => (Except.error e, db)

/-- The success path of the batch upsert: a never-failing engine. -/
def batchUpsertAllFileChunksOk (db : DB) (cid : Nat) (fcs : List FileChunks)
    (now : Nat) : DB :=
  (batchUpsertAllFileChunks (fun _ => false) db cid fcs now).2

/-- The contract of section 4.4 of the spec, per file: delete existing
chunks for the codebase and path, insert all new chunks with the conflict
clearing, upsert the indexed_files row with the new hash, count and
timestamp. -/
def batchUpsertContract (db : DB) (cid : Nat) (fcs : List FileChunks)
    (now : Nat) : DB :=
  fcs.foldl
    (fun st fc =>
      dbUpsertFileRow
        (fc.chunks.foldl (fun s ch => dbInsertChunkOnConflict s cid ch now)
          (dbDeleteChunks st cid fc.filePath))
        cid fc.filePath fc.fileHash fc.chunks.length now)
    db

/-- removeStaleFiles: for every indexed_files path of the codebase not in
the active set, delete its chunks and its file row, counting the files
removed; the whole loop is one transaction. -/
def removeStaleFiles (db : DB) (cid : Nat) (active : List String) : DB × Nat :=
  let allPaths := (db.files.filter (fun f => f.codebaseId = cid)).map
    (fun f => f.filePath)
  allPaths.foldl
    (fun acc p =>
      if active.contains p then acc
      else
        let keptChunks := acc.1.chunks.filter (fun c => ¬ (c.codebaseId = cid ∧ c.filePath = p))
        let keptFiles := acc.1.files.filter (fun f => ¬ (f.codebaseId = cid ∧ f.filePath = p))
        ({ acc.1 with chunks := keptChunks, files := keptFiles }, acc.2 + 1))
    (db, 0)

/-- A stale-embedding row as returned by getStaleEmbeddings. -/
structure StaleChunk where
  chunkKey : String
  name : String
  signature : String
  filePath : String
  kind : String
  snippet : String
deriving DecidableEq, Repr

/-- getStaleEmbeddings without a limit (the orchestrator passes none): the
chunks of the codebase whose embedding is NULL or whose embedding_model
differs from the requested model. -/
def staleRowOf (c : ChunkRow) : StaleChunk :=
  { chunkKey := c.chunkKey, name := c.name, signature := c.signature,
    filePath := c.filePath, kind := c.kind, snippet := c.snippet }

def getStaleEmbeddings (db : DB) (cid : Nat) (modelName : String) :
    List StaleChunk :=
  (db.chunks.filter (fun c => c.codebaseId = cid
      ∧ (c.embedding = none ∨ c.embeddingModel ≠ modelName))).map staleRowOf

/-- The success path of batchUpsertEmbeddings: store each vector and the
model tag on the row with the chunk key (vector8 quantization is
engine-side). -/
def batchUpsertEmbeddingsOk (db : DB)
    (items : List (String × List ℚ)) (modelName : String) : DB :=
  items.foldl
    (fun st it =>
      let updated := st.chunks.map (fun row =>
        if row.chunkKey = it.1 then
          { row with embedding := some it.2, embeddingModel := modelName }
        else row)
      { st with chunks := updated })
    db

/-- touchCodebase: advance the indexed_at timestamp of the codebase. -/
def touchCodebase (db : DB) (cid : Nat) (now : Nat) : DB :=
  let updated := db.codebases.map (fun c =>
    if c.id = cid then { c with indexedAt := now } else c)
  { db with codebases := updated }

/-- Total number of chunk rows a codebase holds. -/
def codebaseChunkCount (db : DB) (cid : Nat) : Nat :=
  (db.chunks.filter (fun c => c.codebaseId = cid)).length

/-! The orchestrator pipeline (CodeIndex.index of src/index.ts). -/

/-- An entry of the IndexResult errors array.  The scanner produces plain
strings; the per-file chunking catch of index.ts line 140 pushes an object
with path and error fields into the same array. -/
inductive IndexError where
  | str (s : String)
  | obj (path : String) (error : String)
deriving DecidableEq, Repr

/-- The counters of an IndexResult; the wall-clock duration is external and
omitted. -/
structure IndexResultM where
  files : Nat
  chunks : Nat
  embedded : Nat
  skipped : Nat
  removed : Nat
  errors : List IndexError
deriving DecidableEq, Repr

/-- buildEmbedText of src/index.ts: the embedding input text of a chunk;
JS string truthiness makes empty fields omitted, and the snippet preview is
its first 500 units. -/
def buildEmbedText (s : StaleChunk) : String :=
  let text := s.filePath
  let text := if s.kind ≠ "" ∧ s.name ≠ "" then text ++ ": " ++ s.kind ++ " " ++ s.name
    else if s.name ≠ "" then text ++ ": " ++ s.name
    else text
  let text := if s.signature ≠ "" then text ++ "\n" ++ s.signature else text
  if s.snippet ≠ "" then text ++ "\n" ++ String.mk (s.snippet.toList.take 500)
  else text

/-- Fueled slicing: each step removes at least one element when n is
positive, so fuel equal to the list length always suffices. -/
def batchedF {α : Type} (n : Nat) : Nat → List α → List (List α)
  | _, [] => []
  | 0, _ :: _ => []
  | Nat.succ fuel, a :: as =>
    if n = 0 then []
    else (a :: as).take n :: batchedF n fuel ((a :: as).drop n)

/-- Slices of at most n elements, in order (the batch loops of the
pipeline). -/
def batched {α : Type} (n : Nat) (l : List α) : List (List α) :=
  batchedF n l.length l

/-- The hash-partition accumulator of phase 2. -/
structure PartAcc where
  active : List String
  skipped : Nat
  toProcess : List ScannedFile

/-- The per-batch chunking accumulator. -/
structure BatchAcc where
  batchChunks : List FileChunks
  filesProcessed : Nat
  chunksCreated : Nat
  errors : List IndexError

/-- The across-batches accumulator. -/
structure RunAcc where
  db : DB
  embedded : Nat
  filesProcessed : Nat
  chunksCreated : Nat
  errors : List IndexError

/-- CodeIndex.index of src/index.ts as a function of the external world:
the directory entries, the SHA-256 oracle, the parser-and-chunker oracle
(per-file failures surface as Except.error), the embedder oracle and the
clock.  Phase 1 scans; phase 2 partitions by stored hash, then for each
slice of up to 200 files chunks them, persists the chunks, reads the stale
embeddings of the codebase and embeds them in sub-batches of up to 64;
phase 3 removes files no longer active; the fts rebuild only touches the
external text-index engine; finally the codebase timestamp advances. -/
def indexRun (db0 : DB) (dir : String) (rootEntries : List FSEntry)
    (langs : Option (List String)) (hashFn : String → String)
    (chunker : ScannedFile → LanguageConfig → Except String (List CodeChunk))
    (embedder : List String → List (List ℚ))
    (embeddingModel : String) (now : Nat) : DB × IndexResultM :=
  let rootDir := dir
  let created := getOrCreateCodebase db0 rootDir now
  let db1 := created.1
  let cid := created.2
  let scanned := scanDirectory rootDir rootEntries langs hashFn
  let files := scanned.1
  let errors0 : List IndexError := scanned.2.map IndexError.str
  let part := files.foldl
    (fun (acc : PartAcc) file =>
      let acc := { acc with active := acc.active ++ [file.absPath] }
      if getFileHash db1 cid file.absPath = some file.hash then
        { acc with skipped := acc.skipped + 1 }
      else { acc with toProcess := acc.toProcess ++ [file] })
    { active := [], skipped := 0, toProcess := [] }
  let run := (batched 200 part.toProcess).foldl
    (fun (acc : RunAcc) batchFiles =>
      let bres := batchFiles.foldl
        (fun (bacc : BatchAcc) file =>
          match detectLanguage file.absPath with
          | none => bacc
          | some langConfig =>
            match chunker file langConfig with
            | Except.ok chunks =>
              { bacc with
                batchChunks := bacc.batchChunks
                  ++ [{ filePath := file.absPath, fileHash := file.hash,
                        chunks := chunks }],
                filesProcessed := bacc.filesProcessed + 1,
                chunksCreated := bacc.chunksCreated + chunks.length }
            | Except.error e =>
              { bacc with errors := bacc.errors ++ [IndexError.obj file.absPath e] })
        { batchChunks := [], filesProcessed := 0, chunksCreated := 0, errors := [] }
      let db2 :=
        if bres.batchChunks ≠ []
        then batchUpsertAllFileChunksOk acc.db cid bres.batchChunks now
        else acc.db
      let stale := getStaleEmbeddings db2 cid embeddingModel
      let emb :=
        if stale ≠ [] then
          (batched 64 stale).foldl
            (fun (eacc : DB × Nat) slice =>
              let texts := slice.map buildEmbedText
              let vectors := embedder texts
              let items := List.zip (slice.map (fun s => s.chunkKey)) vectors
              (batchUpsertEmbeddingsOk eacc.1 items embeddingModel,
               eacc.2 + vectors.length))
            (db2, acc.embedded)
        else (db2, acc.embedded)
      { db := emb.1, embedded := emb.2,
        filesProcessed := acc.filesProcessed + bres.filesProcessed,
        chunksCreated := acc.chunksCreated + bres.chunksCreated,
        errors := acc.errors ++ bres.errors })
    { db := db1, embedded := 0, filesProcessed := 0, chunksCreated := 0,
      errors := [] }
  let removedRes := removeStaleFiles run.db cid part.active
  let db3 := removedRes.1
  let db4 := touchCodebase db3 cid now
  (db4,
   { files := run.filesProcessed, chunks := run.chunksCreated,
     embedded := run.embedded, skipped := part.skipped,
     removed := removedRes.2, errors := errors0 ++ run.errors })

/-! Vector search (Store.vectorSearch, src/db/store.ts lines 320 to 353). -/

/-- The ascending-distance order of the SQL ORDER BY. -/
def distLE (a b : ChunkRow × ℚ) : Prop := a.2 ≤ b.2

instance : DecidableRel distLE := fun a b => inferInstanceAs (Decidable (a.2 ≤ b.2))

/-- Store.vectorSearch: over the rows whose embedding is not NULL, order by
the cosine distance to the query vector ascending, take the limit, and
report score = 1 - distance; the snippet is included only on request.  The
vector_distance_cos operator of the engine is the dist oracle. -/
def vectorSearchDb (db : DB) (dist : List ℚ → List ℚ → ℚ)
    (queryVec : List ℚ) (limit : Nat) (includeSnippet : Bool) :
    List SearchResult :=
  let rows := db.chunks.filterMap
    (fun c => c.embedding.map (fun emb => (c, dist emb queryVec)))
  let sorted := rows.insertionSort distLE
  (sorted.take limit).map
    (fun p =>
      { chunkKey := p.1.chunkKey, filePath := p.1.filePath, name := p.1.name,
        kind := p.1.kind, signature := p.1.signature,
        snippet := if includeSnippet then p.1.snippet else "",
        startLine := p.1.startLine, endLine := p.1.endLine,
        score := 1 - p.2 })

/-! Chunker (src/chunk/types.ts, pure part).  The tree-sitter parse of a
source file is external; its result is modelled as the syntax-node tree the
web-tree-sitter API exposes: every node carries its type string, 0-based
start and end rows, the named flag, the field name it occupies in its
parent, its verbatim source text, and all its children (named and
anonymous). -/

/-- A tree-sitter syntax node. -/
inductive SNode where
  | mk (nodeType : String) (startRow endRow : Nat) (named : Bool)
      (fieldTag : Option String) (text : String) (children : List SNode)

def SNode.nodeType : SNode → String
  | SNode.mk t _ _ _ _ _ _ => t

def SNode.startRow : SNode → Nat
  | SNode.mk _ s _ _ _ _ _ => s

def SNode.endRow : SNode → Nat
  | SNode.mk _ _ e _ _ _ _ => e

def SNode.named : SNode → Bool
  | SNode.mk _ _ _ nm _ _ _ => nm

def SNode.fieldTag : SNode → Option String
  | SNode.mk _ _ _ _ f _ _ => f

def SNode.text : SNode → String
  | SNode.mk _ _ _ _ _ tx _ => tx

def SNode.children : SNode → List SNode
  | SNode.mk _ _ _ _ _ _ cs => cs

mutual

/-- A computable size of a node, used as recursion fuel. -/
def SNode.size : SNode → Nat
  | SNode.mk _ _ _ _ _ _ cs => 1 + SNode.sizeList cs

def SNode.sizeList : List SNode → Nat
  | [] => 0
  | c :: cs => SNode.size c + SNode.sizeList cs

end

/-- node.childForFieldName(f): the first child occupying field f. -/
def SNode.childForFieldName (n : SNode) (f : String) : Option SNode :=
  n.children.find? (fun c => c.fieldTag = some f)

/-- node.namedChildren. -/
def SNode.namedChildren (n : SNode) : List SNode :=
  n.children.filter (fun c => c.named)

/-- Whether the first list is an initial segment of the second. -/
def listLeadsList : List Char → List Char → Bool
  | [], _ => true
  | _ :: _, [] => false
  | a :: as, b :: bs => a = b && listLeadsList as bs

/-- Whether the first list occurs contiguously inside the second. -/
def listInsideList (pat : List Char) : List Char → Bool
  | [] => listLeadsList pat []
  | c :: rest => listLeadsList pat (c :: rest) || listInsideList pat rest

/-- JS String.prototype.includes. -/
def strIncludes (s pat : String) : Bool :=
  listInsideList pat.toList s.toList

/-- Decimal rendering of a number, as in the JS template literal of the
chunk key; the fuel argument only drives the digit recursion and n + 1 is
always enough of it. -/
def natToStrAux : Nat → Nat → List Char
  | 0, _ => []
  | Nat.succ fuel, n =>
    if n < 10 then [Char.ofNat (48 + n)]
    else natToStrAux fuel (n / 10) ++ [Char.ofNat (48 + n % 10)]

def natToStr (n : Nat) : String :=
  String.mk (natToStrAux (n + 1) n)

/-- The chunker split threshold MAX_CHUNK_LINES. -/
def MAX_CHUNK_LINES : Nat := 150

/-- unwrapExport: on an export_statement, the first named child that is
neither a decorator nor a comment. -/
def unwrapExport (node : SNode) : Option SNode :=
  if node.nodeType = "export_statement" then
    node.namedChildren.find?
      (fun child => child.nodeType ≠ "decorator" ∧ child.nodeType ≠ "comment")
  else none

/-- The replace(/^"|"$/g, "") of the Zig test name: strip one leading and
one trailing double quote. -/
def stripOuterQuotes (s : String) : String :=
  let cs := s.toList
  let cs := match cs with
    | '"' :: rest => rest
    | other => other
  let cs := if cs.getLast? = some '"' then cs.dropLast else cs
  String.mk cs

/-- The language-specific name rules of extractName that return or fall
through to the generic rules; none encodes the fall-through. -/
def specificName (n : SNode) : Option String :=
  if n.nodeType = "singleton_method" then
    match n.childForFieldName "object", n.childForFieldName "name" with
    | some obj, some nm => some (obj.text ++ "." ++ nm.text)
    | none, some nm => some nm.text
    | _, none => none
  else if n.nodeType = "assignment" then
    match n.namedChildren with
    | left :: _ => some left.text
    | [] => some ""
  else if n.nodeType = "function_definition" then
    match n.childForFieldName "declarator" with
    | some declarator =>
      if declarator.nodeType = "function_declarator" then
        (declarator.childForFieldName "declarator").map SNode.text
      else none
    | none => none
  else if n.nodeType = "type_definition" then
    (n.namedChildren.find? (fun c => c.nodeType = "type_identifier")).map SNode.text
  else if n.nodeType = "method_declaration" then
    match n.childForFieldName "name", n.childForFieldName "receiver" with
    | some nm, some receiver =>
      match (receiver.namedChildren.head?).bind
          (fun p => p.childForFieldName "type") with
      | some paramType => some (paramType.text ++ "." ++ nm.text)
      | none => some nm.text
    | some nm, none => some nm.text
    | none, _ => none
  else if n.nodeType = "type_declaration" then
    match n.namedChildren.find? (fun c => c.nodeType = "type_spec") with
    | some spec => (spec.childForFieldName "name").map SNode.text
    | none => none
  else if n.nodeType = "const_declaration" ∨ n.nodeType = "var_declaration" then
    match n.namedChildren.find?
        (fun c => c.nodeType = "const_spec" ∨ c.nodeType = "var_spec") with
    | some spec => (spec.childForFieldName "name").map SNode.text
    | none => none
  else if n.nodeType = "val_definition" then
    (n.childForFieldName "pattern").map SNode.text
  else if n.nodeType = "variable_declaration" then
    (n.namedChildren.find? (fun c => c.nodeType = "identifier")).map SNode.text
  else if n.nodeType = "test_declaration" then
    (n.namedChildren.find?
        (fun c => c.nodeType = "string" ∨ c.nodeType = "string_literal")).map
      (fun str => stripOuterQuotes str.text)
  else none

/-- The tail of extractName: the common identifier fields, the Rust impl
type and trait fields, and the JS lexical declarator. -/
def genericName (n : SNode) : String :=
  match n.childForFieldName "name" with
  | some c => c.text
  | none =>
    match n.childForFieldName "identifier" with
    | some c => c.text
    | none =>
      match n.childForFieldName "type_identifier" with
      | some c => c.text
      | none =>
        match n.childForFieldName "type" with
        | some ty =>
          match n.childForFieldName "trait" with
          | some tr => tr.text ++ " for " ++ ty.text
          | none => ty.text
        | none =>
          if n.nodeType = "lexical_declaration" then
            match n.namedChildren.find?
                (fun c => c.nodeType = "variable_declarator") with
            | some d =>
              match d.childForFieldName "name" with
              | some nm => nm.text
              | none => ""
            | none => ""
          else ""

/-- The non-recursive remainder of extractName. -/
def extractNameRest (n : SNode) : String :=
  (specificName n).getD (genericName n)

/-- extractName with explicit fuel: the three unwrapping branches recurse
into a proper child of the node, so the recursion depth is below any node
size and the fuel SNode.size n of extractName never runs out. -/
def extractNameF : Nat → SNode → String
  | 0, _ => ""
  | Nat.succ fuel, n =>
    if n.nodeType = "export_statement" then
      match unwrapExport n with
      | some inner => extractNameF fuel inner
      | none => ""
    else if n.nodeType = "decorated_definition" then
      match n.childForFieldName "definition" with
      | some inner => extractNameF fuel inner
      | none => ""
    else if n.nodeType = "template_declaration" then
      match n.namedChildren.find? (fun c => c.nodeType ≠ "template_parameter_list") with
      | some inner => extractNameF fuel inner
      | none => ""
    else extractNameRest n

def extractName (n : SNode) : String :=
  extractNameF (SNode.size n) n

/-- extractSignature: the trimmed source line the node starts on. -/
def extractSignature (n : SNode) (sourceLines : List String) : String :=
  jsTrim ((sourceLines.get? n.startRow).getD "")

/-- The line span of a node, in physical lines. -/
def lineSpanOf (n : SNode) : Nat :=
  n.endRow - n.startRow + 1

/-- makeChunk: 1-based inclusive lines, the chunk key template
filePath:startLine:endLine, name, first-line signature and verbatim
snippet. -/
def makeChunk (filePath langName fileHash : String) (sourceLines : List String)
    (node : SNode) (kind : String) : CodeChunk :=
  let startLine := node.startRow + 1
  let endLine := node.endRow + 1
  { chunkKey := filePath ++ ":" ++ natToStr startLine ++ ":" ++ natToStr endLine,
    filePath := filePath, language := langName, kind := kind,
    name := extractName node,
    signature := extractSignature node sourceLines,
    snippet := node.text, startLine := startLine, endLine := endLine,
    fileHash := fileHash }

/-- nodeKind: the kind normalization of raw tree-sitter types. -/
def nodeKind (t : String) : String :=
  if strIncludes t "function" ∨ t = "function_item" then "function"
  else if strIncludes t "struct" then "struct"
  else if strIncludes t "enum" then "enum"
  else if strIncludes t "impl" then "impl"
  else if strIncludes t "trait" then "trait"
  else if t = "type_item" ∨ t = "type_alias_declaration" ∨ t = "type_definition"
      ∨ t = "type_declaration" then "type"
  else if strIncludes t "const" then "const"
  else if strIncludes t "static" then "static"
  else if strIncludes t "macro" ∨ t = "preproc_def" ∨ t = "preproc_function_def" then "macro"
  else if t = "namespace_definition" then "namespace"
  else if t = "template_declaration" then "template"
  else if strIncludes t "mod" then "module"
  else if strIncludes t "class" then "class"
  else if t = "method_declaration" then "method"
  else if strIncludes t "method" then "method"
  else if strIncludes t "interface" then "interface"
  else if t = "variable_declaration" ∨ t = "lexical_declaration"
      ∨ t = "var_declaration" ∨ t = "val_definition" ∨ t = "assignment" then "variable"
  else if t = "declaration" then "declaration"
  else if t = "decorated_definition" then "function"
  else if t = "test_declaration" then "test"
  else if t = "object_definition" then "object"
  else if t = "record_declaration" then "record"
  else if t = "constructor_declaration" then "constructor"
  else t

/-- The body-wrapper node types splitLargeNode walks into. -/
def bodyWrappers : List String :=
  ["class_body", "declaration_list", "field_declaration_list",
   "body_statement", "block"]

/-- isSubItem of splitLargeNode: a top-level kind, or a type mentioning
function, method or constructor. -/
def isSubItem (topLevelSet : List String) (t : String) : Bool :=
  topLevelSet.contains t || strIncludes t "function" || strIncludes t "method"
    || strIncludes t "constructor"

/-- Whether a node has a recognized member child: a direct child, or a
grandchild inside a body wrapper, accepted by isSubItem.  This is exactly
the condition under which splitLargeNode finds sub-items. -/
def hasRecognizedMember (topLevelSet : List String) (n : SNode) : Bool :=
  n.children.any (fun sub =>
    isSubItem topLevelSet sub.nodeType
    || (bodyWrappers.contains sub.nodeType
        && sub.children.any (fun innerNode => isSubItem topLevelSet innerNode.nodeType)))

/-- How a chunk was emitted: a whole top-level node, a member of a split
oversized node, or the whole-node fallback of a split that found no
members. -/
inductive EmitSite where
  | whole
  | member
  | unsplit
deriving DecidableEq, Repr

/-- An emitted chunk instrumented with its source nodes: outer provides the
line range (the export, decorator or template wrapper when present), inner
is the unwrapped declaration that drove the kind and the split decision. -/
structure Emitted where
  chunk : CodeChunk
  outer : SNode
  inner : SNode
  site : EmitSite

/-- splitLargeNode: emit one chunk per member found directly among the
children or inside a recognized body wrapper; with no members, emit the
whole outer node as a single chunk. -/
def splitLargeNodeI (topLevelSet : List String)
    (filePath langName fileHash : String) (sourceLines : List String)
    (node outerNode : SNode) : List Emitted :=
  let subChunks := (node.children.map (fun sub =>
    if isSubItem topLevelSet sub.nodeType then
      [{ chunk := makeChunk filePath langName fileHash sourceLines sub (nodeKind sub.nodeType),
         outer := sub, inner := sub, site := EmitSite.member }]
    else if bodyWrappers.contains sub.nodeType then
      sub.children.filterMap (fun innerNode =>
        if isSubItem topLevelSet innerNode.nodeType then
          some { chunk := makeChunk filePath langName fileHash sourceLines innerNode (nodeKind innerNode.nodeType),
                 outer := innerNode, inner := innerNode, site := EmitSite.member }
        else none)
    else [])).flatten
  if subChunks.isEmpty then
    [{ chunk := makeChunk filePath langName fileHash sourceLines outerNode (nodeKind node.nodeType),
       outer := outerNode, inner := node, site := EmitSite.unsplit }]
  else subChunks

/-- processNode: unwrap export statements, decorated definitions and
template declarations, emit top-level definitions whole when small or not
splittable, and split oversized splittable nodes; a decorated or template
node without a recognizable inner declaration falls through to the plain
top-level handling. -/
def processNodeI (cfg : LanguageConfig) (filePath fileHash : String)
    (sourceLines : List String) (node : SNode) : List Emitted :=
  if node.nodeType = "export_statement" then
    match unwrapExport node with
    | some inner =>
      if cfg.topLevelNodes.contains inner.nodeType then
        let kind := nodeKind inner.nodeType
        let lineCount := lineSpanOf node
        if lineCount ≤ MAX_CHUNK_LINES ∨ ¬ cfg.splitNodes.contains inner.nodeType then
          [{ chunk := makeChunk filePath cfg.name fileHash sourceLines node kind,
             outer := node, inner := inner, site := EmitSite.whole }]
        else splitLargeNodeI cfg.topLevelNodes filePath cfg.name fileHash sourceLines inner node
      else if strIncludes inner.nodeType "function" || strIncludes inner.nodeType "class" then
        [{ chunk := makeChunk filePath cfg.name fileHash sourceLines node (nodeKind inner.nodeType),
           outer := node, inner := inner, site := EmitSite.whole }]
      else []
    | none => []
  else if node.nodeType = "decorated_definition"
      ∧ (node.childForFieldName "definition").isSome then
    match node.childForFieldName "definition" with
    | some inner =>
      let kind := nodeKind inner.nodeType
      let lineCount := lineSpanOf node
      if lineCount ≤ MAX_CHUNK_LINES ∨ ¬ cfg.splitNodes.contains inner.nodeType then
        [{ chunk := makeChunk filePath cfg.name fileHash sourceLines node kind,
           outer := node, inner := inner, site := EmitSite.whole }]
      else splitLargeNodeI cfg.topLevelNodes filePath cfg.name fileHash sourceLines inner node
    | none => []
  else if node.nodeType = "template_declaration"
      ∧ (node.namedChildren.find? (fun c => c.nodeType ≠ "template_parameter_list")).isSome then
    match node.namedChildren.find? (fun c => c.nodeType ≠ "template_parameter_list") with
    | some inner =>
      let kind := nodeKind inner.nodeType
      let lineCount := lineSpanOf node
      if lineCount ≤ MAX_CHUNK_LINES ∨ ¬ cfg.splitNodes.contains inner.nodeType then
        [{ chunk := makeChunk filePath cfg.name fileHash sourceLines node kind,
           outer := node, inner := inner, site := EmitSite.whole }]
      else splitLargeNodeI cfg.topLevelNodes filePath cfg.name fileHash sourceLines inner node
    | none => []
  else if ¬ cfg.topLevelNodes.contains node.nodeType then []
  else
    let lineCount := lineSpanOf node
    let kind := nodeKind node.nodeType
    if lineCount ≤ MAX_CHUNK_LINES ∨ ¬ cfg.splitNodes.contains node.nodeType then
      [{ chunk := makeChunk filePath cfg.name fileHash sourceLines node kind,
         outer := node, inner := node, site := EmitSite.whole }]
    else splitLargeNodeI cfg.topLevelNodes filePath cfg.name fileHash sourceLines node node

/-- chunkFile on an already-parsed tree, instrumented with the source
nodes: walk the direct children of the root. -/
def chunkFileI (filePath content fileHash : String) (cfg : LanguageConfig)
    (root : SNode) : List Emitted :=
  let sourceLines := splitOnChar '\n' content
  (root.children.map (processNodeI cfg filePath fileHash sourceLines)).flatten

/-- chunkFile of src/chunk/types.ts, given the external parse result. -/
def chunkFile (filePath content fileHash : String) (cfg : LanguageConfig)
    (root : SNode) : List CodeChunk :=
  (chunkFileI filePath content fileHash cfg root).map Emitted.chunk

/-- A chunk key all of whose rows carry a cleared embedding: NULL vector
and empty model tag. -/
def chunkKeyCleared (st : DB) (k : String) : Prop :=
  ∀ row ∈ st.chunks, row.chunkKey = k → row.embedding = none ∧ row.embeddingModel = ""

/-! Concrete inputs for witnesses and counterexamples. -/

/-- An empty store. -/
def emptyDB : DB :=
  { codebases := [], chunks := [], files := [] }

/-- A stored chunk embedded under the model tag old. -/
def exampleChunkRow : ChunkRow :=
  { codebaseId := 1, filePath := "/r/a.rs", chunkKey := "/r/a.rs:1:2",
    language := "rust", kind := "function", name := "a", signature := "fn a()",
    snippet := "", startLine := 1, endLine := 2, fileHash := "h", indexedAt := 0,
    embedding := some [1], embeddingModel := "old" }

/-- A store holding one codebase with one indexed file and one embedded
chunk. -/
def exampleDB : DB :=
  { codebases := [{ id := 1, rootPath := "/r", name := "r", indexedAt := 0 }],
    chunks := [exampleChunkRow],
    files := [{ codebaseId := 1, filePath := "/r/a.rs", fileHash := "h",
                chunkCount := 1, indexedAt := 0 }] }

/-- A directory holding the one unchanged source file of exampleDB. -/
def exampleFS : List FSEntry :=
  [FSEntry.file "a.rs" 10 "fn a(){}"]

/-- A SHA-256 oracle under which the file content of exampleFS hashes to the
stored hash. -/
def exampleHash : String → String := fun _ => "h"

/-- A chunker oracle that is never consulted on unchanged trees. -/
def exampleChunker : ScannedFile → LanguageConfig → Except String (List CodeChunk) :=
  fun _ _ => Except.ok []

/-- A chunker oracle whose parse always fails. -/
def failingChunker : ScannedFile → LanguageConfig → Except String (List CodeChunk) :=
  fun _ _ => Except.error "parse failed"

/-- A constant embedding oracle. -/
def exampleEmbedder : List String → List (List ℚ) :=
  fun texts => texts.map (fun _ => [1])

/-- A cosine-distance oracle reporting distance 1.5, a legitimate cosine
distance for vectors of negative similarity; the resulting score
1 - 1.5 is negative. -/
def exampleDist : List ℚ → List ℚ → ℚ := fun _ _ => 3/2

/-- Store operations over exampleDB with the distance oracle above and no
text index. -/
def exampleOpsC3 : StoreOps :=
  { vectorSearch := vectorSearchDb exampleDB exampleDist,
    ftsSearch := fun _ _ _ => [] }

/-- Store operations whose vector side returns one hit. -/
def exampleOpsC2 : StoreOps :=
  { vectorSearch := fun _ _ _ => [sampleRow "v"],
    ftsSearch := fun _ _ _ => [] }

/-- Search options selecting a mode with every other field defaulted. -/
def modeOpts (m : SearchMode) : SearchOptions :=
  { limit := none, threshold := none, includeSnippet := none, mode := some m }

/-- Semantic search options with threshold one half. -/
def halfThresholdOpts : SearchOptions :=
  { limit := some 5, threshold := some (1/2), includeSnippet := some false,
    mode := some SearchMode.semantic }

/-- Semantic search options with an explicit threshold of zero. -/
def semanticZeroThreshold : SearchOptions :=
  { limit := some 5, threshold := some 0, includeSnippet := some false,
    mode := some SearchMode.semantic }

/-- A replacement chunk for the batch-upsert witness. -/
def exampleNewChunk : CodeChunk :=
  { chunkKey := "/r/a.rs:1:3", filePath := "/r/a.rs", language := "rust",
    kind := "function", name := "a", signature := "fn a()",
    snippet := "fn a(){}", startLine := 1, endLine := 3, fileHash := "h2" }

/-- A one-file batch input for the batch-upsert witness. -/
def exampleFileChunks : FileChunks :=
  { filePath := "/r/a.rs", fileHash := "h2", chunks := [exampleNewChunk] }

/-- A Python identifier node occupying the name field. -/
def pyIdent (nm : String) : SNode :=
  SNode.mk "identifier" 0 0 true (some "name") nm []

/-- A ten-line nested function inside the big function below. -/
def exampleNestedFn : SNode :=
  SNode.mk "function_definition" 10 20 true none "def g(): ..."
    [pyIdent "g", SNode.mk "block" 11 20 true (some "body") "..." []]

/-- The 199-row body block of the big function, holding the nested def. -/
def exampleBlock : SNode :=
  SNode.mk "block" 1 199 true (some "body") "..." [exampleNestedFn]

/-- A 200-line top-level Python function containing a nested def: its kind,
function, is not splittable, so the chunker emits it whole. -/
def exampleBigFn : SNode :=
  SNode.mk "function_definition" 0 199 true none "def f(): ..."
    [pyIdent "f", exampleBlock]

/-- A module root holding the big function. -/
def exampleRoot : SNode :=
  SNode.mk "module" 0 199 true none "..." [exampleBigFn]

/-- The chunk the chunker emits for the big function. -/
def exampleChunkC5 : CodeChunk :=
  { chunkKey := "/r/x.py:1:200", filePath := "/r/x.py", language := "python",
    kind := "function", name := "f", signature := "def f():",
    snippet := "def f(): ...", startLine := 1, endLine := 200, fileHash := "h" }

/-- The split-bound sentence of the spec (section 8, law 6) as a predicate
of the instrumented chunker output: every emitted chunk whose kind is not in
the splittable set spans at most MAX_CHUNK_LINES lines, or else its source
node spans more and has no recognized member children. -/
def splitBoundClaim (cfg : LanguageConfig) (filePath content fileHash : String)
    (root : SNode) : Prop :=
  ∀ e ∈ chunkFileI filePath content fileHash cfg root,
    ¬ cfg.splitNodes.contains e.chunk.kind →
      (e.chunk.endLine - e.chunk.startLine + 1 ≤ MAX_CHUNK_LINES
        ∨ (MAX_CHUNK_LINES < e.chunk.endLine - e.chunk.startLine + 1
            ∧ hasRecognizedMember cfg.topLevelNodes e.inner = false))

/-- A six-line top-level Python class: its kind is splittable but it is
small, so the chunker emits it whole. -/
def exampleSmallClass : SNode :=
  SNode.mk "class_definition" 0 5 true none "class A: ..." [pyIdent "A"]

/-- A module root holding the small class. -/
def exampleRootC5W : SNode :=
  SNode.mk "module" 0 5 true none "..." [exampleSmallClass]

/-- The chunk the chunker emits for the small class. -/
def exampleChunkC5W : CodeChunk :=
  { chunkKey := "/r/y.py:1:6", filePath := "/r/y.py", language := "python",
    kind := "class", name := "A", signature := "class A:",
    snippet := "class A: ...", startLine := 1, endLine := 6, fileHash := "h" }

/-! Lemmas about the JS Map model. -/

theorem mapGet_mapSet_self {α : Type} (m : List (String × α)) (k : String) (v : α) :
    mapGet (mapSet m k v) k = some v := by
  induction m with
  | nil => simp [mapSet, mapGet]
  | cons hd tl ih =>
    obtain ⟨k0, v0⟩ := hd
    by_cases h : k0 = k <;> simp [mapSet, mapGet, h, ih]

theorem mapGet_mapSet_ne {α : Type} (m : List (String × α)) (k k2 : String) (v : α)
    (h : k2 ≠ k) : mapGet (mapSet m k v) k2 = mapGet m k2 := by
  induction m with
  | nil => simp [mapSet, mapGet, Ne.symm h]
  | cons hd tl ih =>
    obtain ⟨k0, v0⟩ := hd
    by_cases h0 : k0 = k
    · subst h0
      simp [mapSet, mapGet, Ne.symm h]
    · simp [mapSet, mapGet, h0, ih]

theorem mapSet_of_not_mem {α : Type} (m : List (String × α)) (k : String) (v : α)
    (h : k ∉ mapKeys m) : mapSet m k v = m ++ [(k, v)] := by
  induction m with
  | nil => simp [mapSet]
  | cons hd tl ih =>
    obtain ⟨k0, v0⟩ := hd
    simp only [mapKeys, List.map_cons, List.mem_cons] at h
    push_neg at h
    have h1 : ¬ k0 = k := Ne.symm h.1
    simp [mapSet, h1, ih (by simpa [mapKeys] using h.2)]

theorem mapKeys_mapSet_of_mem {α : Type} (m : List (String × α)) (k : String) (v : α)
    (h : k ∈ mapKeys m) : mapKeys (mapSet m k v) = mapKeys m := by
  induction m with
  | nil => simp [mapKeys] at h
  | cons hd tl ih =>
    obtain ⟨k0, v0⟩ := hd
    by_cases h0 : k0 = k
    · simp [mapSet, mapKeys, h0]
    · simp only [mapKeys, List.map_cons, List.mem_cons] at h
      rcases h with h | h
      · exact absurd h.symm h0
      · have := ih (by simpa [mapKeys] using h)
        simp only [mapKeys] at this
        simp [mapSet, mapKeys, h0, this]

theorem mem_mapKeys_mapSet {α : Type} (m : List (String × α)) (k k2 : String) (v : α) :
    k2 ∈ mapKeys (mapSet m k v) ↔ k2 ∈ mapKeys m ∨ k2 = k := by
  by_cases h : k ∈ mapKeys m
  · rw [mapKeys_mapSet_of_mem m k v h]
    constructor
    · exact Or.inl
    · rintro (hh | rfl)
      · exact hh
      · exact h
  · rw [mapSet_of_not_mem m k v h]
    simp [mapKeys]

theorem mapKeys_nodup_mapSet {α : Type} (m : List (String × α)) (k : String) (v : α)
    (h : (mapKeys m).Nodup) : (mapKeys (mapSet m k v)).Nodup := by
  by_cases hm : k ∈ mapKeys m
  · rw [mapKeys_mapSet_of_mem m k v hm]; exact h
  · rw [mapSet_of_not_mem m k v hm]
    simpa [mapKeys] using List.Nodup.append h (by simp) (by simpa [mapKeys, List.disjoint_singleton] using hm)

theorem mapGet_isSome_iff {α : Type} (m : List (String × α)) (k : String) :
    (mapGet m k).isSome ↔ k ∈ mapKeys m := by
  induction m with
  | nil => simp [mapGet, mapKeys]
  | cons hd tl ih =>
    obtain ⟨k0, v0⟩ := hd
    by_cases h : k0 = k
    · simp [mapGet, mapKeys, h, ih]
    · simp only [mapKeys] at ih
      simp only [mapGet, mapKeys, List.map_cons, List.mem_cons]
      rw [if_neg h, ih]
      constructor
      · exact Or.inr
      · rintro (rfl | hh)
        · exact absurd rfl h
        · exact hh

theorem mapGet_of_mem_nodup {α : Type} (m : List (String × α)) (k : String) (v : α)
    (hmem : (k, v) ∈ m) (hnd : (mapKeys m).Nodup) : mapGet m k = some v := by
  induction m with
  | nil => simp at hmem
  | cons hd tl ih =>
    obtain ⟨k0, v0⟩ := hd
    simp only [mapKeys, List.map_cons, List.nodup_cons] at hnd
    rcases List.mem_cons.mp hmem with h | h
    · obtain ⟨h1, h2⟩ := Prod.mk.injEq .. ▸ h
      simp [mapGet, h1.symm, h2]
    · have hk : k0 ≠ k := by
        rintro rfl
        exact hnd.1 (by simpa [mapKeys] using List.mem_map_of_mem Prod.fst h)
      simp [mapGet, hk, ih h (by simpa [mapKeys] using hnd.2)]

/-! Characterization of the two score-accumulation passes of rrfMerge. -/

theorem scorePass_cons (w kc : ℚ) (p : Nat × SearchResult)
    (l : List (Nat × SearchResult)) (sc : List (String × ℚ)) :
    scorePass w kc (p :: l) sc
      = scorePass w kc l
          (mapSet sc p.2.chunkKey ((mapGet sc p.2.chunkKey).getD 0 + w / (kc + (p.1 : ℚ) + 1))) :=
  rfl

theorem scorePass_get_not_mem (w kc : ℚ) (l : List SearchResult) (n : Nat)
    (sc : List (String × ℚ)) (key : String)
    (h : key ∉ l.map SearchResult.chunkKey) :
    mapGet (scorePass w kc (List.enumFrom n l) sc) key = mapGet sc key := by
  induction l generalizing n sc with
  | nil => rfl
  | cons hd tl ih =>
    simp only [List.map_cons, List.mem_cons] at h
    push_neg at h
    rw [List.enumFrom_cons, scorePass_cons]
    rw [ih (n + 1) _ h.2, mapGet_mapSet_ne _ _ _ _ h.1]

theorem scorePass_get_mem (w kc : ℚ) (l : List SearchResult) (n : Nat)
    (sc : List (String × ℚ)) (key : String)
    (hnd : (l.map SearchResult.chunkKey).Nodup)
    (h : key ∈ l.map SearchResult.chunkKey) :
    mapGet (scorePass w kc (List.enumFrom n l) sc) key
      = some ((mapGet sc key).getD 0
          + w / (kc + (n : ℚ) + ((l.map SearchResult.chunkKey).indexOf key : ℚ) + 1)) := by
  induction l generalizing n sc with
  | nil => simp at h
  | cons hd tl ih =>
    simp only [List.map_cons, List.nodup_cons] at hnd
    rw [List.enumFrom_cons, scorePass_cons]
    by_cases hk : key = hd.chunkKey
    · subst hk
      rw [scorePass_get_not_mem w kc tl (n + 1) _ _ hnd.1]
      rw [mapGet_mapSet_self]
      simp [List.indexOf_cons_self]
    · have hmem : key ∈ tl.map SearchResult.chunkKey := by
        rcases List.mem_cons.mp h with h0 | h0
        · exact absurd h0 hk
        · exact h0
      rw [ih (n + 1) _ hnd.2 hmem]
      rw [mapGet_mapSet_ne _ _ _ _ hk]
      have hidx : (List.map SearchResult.chunkKey (hd :: tl)).indexOf key
          = ((tl.map SearchResult.chunkKey).indexOf key) + 1 := by
        simp only [List.map_cons]
        exact List.indexOf_cons_ne _ (Ne.symm hk)
      rw [hidx]
      push_cast
      ring_nf

theorem mem_mapKeys_scorePass (w kc : ℚ) (l : List (Nat × SearchResult))
    (sc : List (String × ℚ)) (key : String) :
    key ∈ mapKeys (scorePass w kc l sc)
      ↔ key ∈ mapKeys sc ∨ key ∈ l.map (fun p => p.2.chunkKey) := by
  induction l generalizing sc with
  | nil => simp [scorePass]
  | cons hd tl ih =>
    rw [scorePass_cons, ih]
    rw [mem_mapKeys_mapSet]
    simp only [List.map_cons, List.mem_cons]
    tauto

theorem mapKeys_scorePass_nodup (w kc : ℚ) (l : List (Nat × SearchResult))
    (sc : List (String × ℚ)) (h : (mapKeys sc).Nodup) :
    (mapKeys (scorePass w kc l sc)).Nodup := by
  induction l generalizing sc with
  | nil => exact h
  | cons hd tl ih =>
    rw [scorePass_cons]
    exact ih _ (mapKeys_nodup_mapSet _ _ _ h)

/-! Characterization of the payload data maps of rrfMerge. -/

theorem dataPassFts_get_not_mem (l : List SearchResult)
    (d : List (String × SearchResult)) (key : String)
    (h : key ∉ l.map SearchResult.chunkKey) :
    mapGet (dataPassFts l d) key = mapGet d key := by
  induction l generalizing d with
  | nil => rfl
  | cons hd tl ih =>
    simp only [List.map_cons, List.mem_cons] at h
    push_neg at h
    show mapGet (dataPassFts tl (mapSet d hd.chunkKey hd)) key = mapGet d key
    rw [ih _ h.2, mapGet_mapSet_ne _ _ _ _ h.1]

theorem dataPassFts_get_mem (l : List SearchResult)
    (d : List (String × SearchResult)) (key : String)
    (hnd : (l.map SearchResult.chunkKey).Nodup)
    (h : key ∈ l.map SearchResult.chunkKey) :
    mapGet (dataPassFts l d) key = l.find? (fun r => r.chunkKey = key) := by
  induction l generalizing d with
  | nil => simp at h
  | cons hd tl ih =>
    simp only [List.map_cons, List.nodup_cons] at hnd
    by_cases hk : key = hd.chunkKey
    · subst hk
      show mapGet (dataPassFts tl (mapSet d hd.chunkKey hd)) hd.chunkKey = _
      rw [dataPassFts_get_not_mem tl _ _ hnd.1, mapGet_mapSet_self]
      simp [List.find?]
    · have hmem : key ∈ tl.map SearchResult.chunkKey := by
        rcases List.mem_cons.mp h with h0 | h0
        · exact absurd h0 hk
        · exact h0
      show mapGet (dataPassFts tl (mapSet d hd.chunkKey hd)) key = _
      rw [ih _ hnd.2 hmem]
      simp [List.find?, Ne.symm hk]

theorem dataPassVec_cons (hd : SearchResult) (tl : List SearchResult)
    (d : List (String × SearchResult)) :
    dataPassVec (hd :: tl) d
      = dataPassVec tl (if mapHas d hd.chunkKey then d else mapSet d hd.chunkKey hd) :=
  rfl

theorem dataPassVec_get (l : List SearchResult)
    (d : List (String × SearchResult)) (key : String) :
    mapGet (dataPassVec l d) key
      = (mapGet d key).orElse (fun _ => l.find? (fun r => r.chunkKey = key)) := by
  induction l generalizing d with
  | nil =>
    show mapGet d key = _
    cases mapGet d key <;> simp [List.find?]
  | cons hd tl ih =>
    rw [dataPassVec_cons]
    by_cases hk : key = hd.chunkKey
    · subst hk
      by_cases hh : mapHas d hd.chunkKey
      · rw [if_pos hh, ih]
        obtain ⟨v, hv⟩ := Option.isSome_iff_exists.mp (by simpa [mapHas] using hh)
        simp [hv, List.find?]
      · rw [if_neg hh, ih, mapGet_mapSet_self]
        have hnone : mapGet d hd.chunkKey = none :=
          Option.not_isSome_iff_eq_none.mp (by simpa [mapHas] using hh)
        simp [hnone, List.find?]
    · by_cases hh : mapHas d hd.chunkKey
      · rw [if_pos hh, ih]
        simp [List.find?, Ne.symm hk]
      · rw [if_neg hh, ih, mapGet_mapSet_ne _ _ _ _ hk]
        simp [List.find?, Ne.symm hk]

theorem filterMap_take_of_isSome {α β : Type} (f : α → Option β) (l : List α) (n : Nat)
    (h : ∀ x ∈ l, (f x).isSome) :
    (l.take n).filterMap f = (l.filterMap f).take n := by
  induction l generalizing n with
  | nil => simp
  | cons hd tl ih =>
    cases n with
    | zero => simp
    | succ n =>
      obtain ⟨b, hb⟩ := Option.isSome_iff_exists.mp (h hd (List.mem_cons_self hd tl))
      simp only [List.take_succ_cons, List.filterMap_cons, hb]
      rw [ih n (fun x hx => h x (List.mem_cons_of_mem hd hx))]

theorem map_filterMap_eq {α β γ : Type} (f : α → Option β) (g : β → γ) (h : α → γ)
    (l : List α) (hl : ∀ x ∈ l, ∃ b, f x = some b ∧ g b = h x) :
    (l.filterMap f).map g = l.map h := by
  induction l with
  | nil => simp
  | cons hd tl ih =>
    obtain ⟨b, hb, hgb⟩ := hl hd (List.mem_cons_self hd tl)
    simp only [List.filterMap_cons, hb, List.map_cons, hgb]
    rw [ih (fun x hx => hl x (List.mem_cons_of_mem hd hx))]

theorem enum_map_key (l : List SearchResult) :
    (List.enum l).map (fun p => p.2.chunkKey) = l.map SearchResult.chunkKey := by
  have h : (fun p : Nat × SearchResult => p.2.chunkKey)
      = SearchResult.chunkKey ∘ Prod.snd := rfl
  rw [h, ← List.map_map, List.enum_map_snd]

/-- The score assigned by the two accumulation passes to any key of the map
is exactly the specification-side weighted reciprocal-rank sum. -/
theorem scores_get_eq_fusedScoreW (fts vec : List SearchResult) (kc wf wv : ℚ)
    (hf : (fts.map SearchResult.chunkKey).Nodup)
    (hv : (vec.map SearchResult.chunkKey).Nodup)
    (key : String)
    (hmem : key ∈ fts.map SearchResult.chunkKey ∨ key ∈ vec.map SearchResult.chunkKey) :
    mapGet (scorePass wv kc vec.enum (scorePass wf kc fts.enum [])) key
      = some (fusedScoreW fts vec kc wf wv key) := by
  have hget1 : mapGet (scorePass wf kc fts.enum []) key
      = if key ∈ fts.map SearchResult.chunkKey then
          some (wf / (kc + ((fts.map SearchResult.chunkKey).indexOf key : ℚ) + 1))
        else none := by
    by_cases hkf : key ∈ fts.map SearchResult.chunkKey
    · rw [List.enum_eq_enumFrom, scorePass_get_mem wf kc fts 0 [] key hf hkf, if_pos hkf]
      show some ((mapGet [] key).getD 0 + _) = _
      norm_num [mapGet]
    · rw [List.enum_eq_enumFrom, scorePass_get_not_mem wf kc fts 0 [] key hkf, if_neg hkf]
      rfl
  by_cases hkv : key ∈ vec.map SearchResult.chunkKey
  · rw [List.enum_eq_enumFrom, scorePass_get_mem wv kc vec 0 _ key hv hkv, hget1]
    by_cases hkf : key ∈ fts.map SearchResult.chunkKey
    · simp only [if_pos hkf, Option.getD_some]
      rw [fusedScoreW, if_pos hkf, if_pos hkv]
      push_cast
      ring_nf
    · simp only [if_neg hkf, Option.getD_none]
      rw [fusedScoreW, if_neg hkf, if_pos hkv]
      push_cast
      ring_nf
  · have hkf : key ∈ fts.map SearchResult.chunkKey := hmem.resolve_right hkv
    rw [List.enum_eq_enumFrom, scorePass_get_not_mem wv kc vec 0 _ key hkv, hget1]
    rw [if_pos hkf, fusedScoreW, if_pos hkf, if_neg hkv]
    ring_nf

/-- The payload map built by the two data passes returns, for every key, the
text-side row when the key occurs in the text list and the vector-side row
otherwise, i.e. exactly payloadRow. -/
theorem data_get_eq_payloadRow (fts vec : List SearchResult)
    (hf : (fts.map SearchResult.chunkKey).Nodup) (key : String) :
    mapGet (dataPassVec vec (dataPassFts fts [])) key = payloadRow fts vec key := by
  rw [dataPassVec_get]
  by_cases hkf : key ∈ fts.map SearchResult.chunkKey
  · rw [dataPassFts_get_mem fts [] key hf hkf, payloadRow]
  · rw [dataPassFts_get_not_mem fts [] key hkf, payloadRow]
    have hnone : fts.find? (fun r => r.chunkKey = key) = none := by
      rw [List.find?_eq_none]
      intro x hx hkey
      exact hkf (by
        refine List.mem_map.mpr ⟨x, hx, ?_⟩
        simpa using hkey)
    rw [hnone]
    rfl

/-- Any row produced by payloadRow carries the key it was looked up by. -/
theorem payloadRow_key (fts vec : List SearchResult) (key : String)
    (row : SearchResult) (h : payloadRow fts vec key = some row) :
    row.chunkKey = key := by
  rw [payloadRow] at h
  rcases hf : fts.find? (fun r => r.chunkKey = key) with _ | r0
  · rw [hf] at h
    rw [show (Option.orElse none fun _ => vec.find? (fun r => r.chunkKey = key))
        = vec.find? (fun r => r.chunkKey = key) from rfl] at h
    simpa using List.find?_some h
  · rw [hf] at h
    rw [show (Option.orElse (some r0) fun _ => vec.find? (fun r => r.chunkKey = key))
        = some r0 from rfl] at h
    obtain rfl : r0 = row := by simpa using h
    simpa using List.find?_some hf

/-- payloadRow succeeds on every key of either input list. -/
theorem payloadRow_isSome (fts vec : List SearchResult) (key : String)
    (hmem : key ∈ fts.map SearchResult.chunkKey ∨ key ∈ vec.map SearchResult.chunkKey) :
    (payloadRow fts vec key).isSome := by
  rw [payloadRow]
  rcases hmem with hmem | hmem
  · obtain ⟨r, hr, hrk⟩ := List.mem_map.mp hmem
    have : (fts.find? (fun r => r.chunkKey = key)).isSome :=
      List.find?_isSome.mpr ⟨r, hr, by simpa using hrk⟩
    obtain ⟨v, hvv⟩ := Option.isSome_iff_exists.mp this
    simp [hvv]
  · rcases hf2 : fts.find? (fun r => r.chunkKey = key) with _ | r0
    · obtain ⟨r, hr, hrk⟩ := List.mem_map.mp hmem
      have : (vec.find? (fun r => r.chunkKey = key)).isSome :=
        List.find?_isSome.mpr ⟨r, hr, by simpa using hrk⟩
      obtain ⟨v, hvv⟩ := Option.isSome_iff_exists.mp this
      rw [hf2, hvv]
      rfl
    · rw [hf2]
      rfl

/-- Full characterization of rrfMergeW on inputs with distinct chunk keys
per list: the merge equals the truncation to the limit of a score-descending
list holding one entry per distinct key of either input, each entry scored by
the weighted reciprocal-rank sum and carrying the text-side payload when the
key appears in the text list. -/
theorem rrfMergeW_characterization (fts vec : List SearchResult) (limit : Nat)
    (kc wf wv : ℚ)
    (hf : (fts.map SearchResult.chunkKey).Nodup)
    (hv : (vec.map SearchResult.chunkKey).Nodup) :
    ∃ full : List SearchResult,
      rrfMergeW fts vec limit kc wf wv = full.take limit
      ∧ List.Pairwise (fun a b : SearchResult => a.score ≥ b.score) full
      ∧ (full.map SearchResult.chunkKey).Nodup
      ∧ (∀ key, key ∈ full.map SearchResult.chunkKey ↔
          key ∈ fts.map SearchResult.chunkKey ∨ key ∈ vec.map SearchResult.chunkKey)
      ∧ (∀ r ∈ full, r.score = fusedScoreW fts vec kc wf wv r.chunkKey
          ∧ ∃ row, payloadRow fts vec r.chunkKey = some row ∧ r = setScore row r.score) := by
  classical
  set scores := scorePass wv kc vec.enum (scorePass wf kc fts.enum []) with hscores
  set data := dataPassVec vec (dataPassFts fts []) with hdata
  set f : (String × ℚ) → Option SearchResult :=
    fun p => (mapGet data p.1).map (fun row => { row with score := p.2 }) with hfdef
  have hkeys_mem : ∀ key, key ∈ mapKeys scores ↔
      key ∈ fts.map SearchResult.chunkKey ∨ key ∈ vec.map SearchResult.chunkKey := by
    intro key
    rw [hscores, mem_mapKeys_scorePass, mem_mapKeys_scorePass]
    have h1 : (List.enum fts).map (fun p : Nat × SearchResult => p.2.chunkKey)
        = fts.map SearchResult.chunkKey := enum_map_key fts
    have h2 : (List.enum vec).map (fun p : Nat × SearchResult => p.2.chunkKey)
        = vec.map SearchResult.chunkKey := enum_map_key vec
    rw [h1, h2]
    simp [mapKeys]
  have hnd_scores : (mapKeys scores).Nodup :=
    mapKeys_scorePass_nodup _ _ _ _
      (mapKeys_scorePass_nodup _ _ _ _ (by simp [mapKeys]))
  have hsorted := List.sorted_insertionSort pairGE scores
  have hperm : List.Perm (sortPairsDesc scores) scores := List.perm_insertionSort pairGE scores
  have hmem_sorted : ∀ p ∈ sortPairsDesc scores, p.1 ∈ mapKeys scores := by
    intro p hp
    exact List.mem_map.mpr ⟨p, hperm.mem_iff.mp hp, rfl⟩
  have hsome : ∀ p ∈ sortPairsDesc scores, (f p).isSome := by
    intro p hp
    have hk := (hkeys_mem p.1).mp (hmem_sorted p hp)
    rw [hfdef]
    simp only
    rw [hdata, data_get_eq_payloadRow fts vec hf p.1]
    obtain ⟨v, hvv⟩ := Option.isSome_iff_exists.mp (payloadRow_isSome fts vec p.1 hk)
    simp [hvv]
  refine ⟨(sortPairsDesc scores).filterMap f, ?_, ?_, ?_, ?_, ?_⟩
  · show ((sortPairsDesc scores).take limit).filterMap f = _
    exact filterMap_take_of_isSome f (sortPairsDesc scores) limit hsome
  · refine List.Pairwise.filterMap f ?_ hsorted
    intro a a2 hle b hb b2 hb2
    rw [hfdef] at hb hb2
    simp only [Option.mem_def, Option.map_eq_some'] at hb hb2
    obtain ⟨ra, _, rfl⟩ := hb
    obtain ⟨ra2, _, rfl⟩ := hb2
    exact hle
  · have hkeysmap : ((sortPairsDesc scores).filterMap f).map SearchResult.chunkKey
        = (sortPairsDesc scores).map Prod.fst := by
      refine map_filterMap_eq f SearchResult.chunkKey Prod.fst _ ?_
      intro p hp
      obtain ⟨v, hvv⟩ := Option.isSome_iff_exists.mp (hsome p hp)
      refine ⟨v, hvv, ?_⟩
      rw [hfdef] at hvv
      simp only [Option.map_eq_some'] at hvv
      obtain ⟨row, hrow, rfl⟩ := hvv
      have := payloadRow_key fts vec p.1 row
        (by rw [← data_get_eq_payloadRow fts vec hf p.1, ← hdata]; exact hrow)
      simpa using this
    rw [hkeysmap]
    exact ((hperm.map Prod.fst).nodup_iff).mpr hnd_scores
  · intro key
    have hkeysmap : ((sortPairsDesc scores).filterMap f).map SearchResult.chunkKey
        = (sortPairsDesc scores).map Prod.fst := by
      refine map_filterMap_eq f SearchResult.chunkKey Prod.fst _ ?_
      intro p hp
      obtain ⟨v, hvv⟩ := Option.isSome_iff_exists.mp (hsome p hp)
      refine ⟨v, hvv, ?_⟩
      rw [hfdef] at hvv
      simp only [Option.map_eq_some'] at hvv
      obtain ⟨row, hrow, rfl⟩ := hvv
      have := payloadRow_key fts vec p.1 row
        (by rw [← data_get_eq_payloadRow fts vec hf p.1, ← hdata]; exact hrow)
      simpa using this
    rw [hkeysmap, ← hkeys_mem key]
    exact (hperm.map Prod.fst).mem_iff
  · intro r hr
    obtain ⟨p, hp, hfp⟩ := List.mem_filterMap.mp hr
    have hpmem : p ∈ scores := hperm.mem_iff.mp hp
    have hkey := (hkeys_mem p.1).mp (hmem_sorted p hp)
    have hget : mapGet scores p.1 = some p.2 := by
      obtain ⟨k0, v0⟩ := p
      exact mapGet_of_mem_nodup scores k0 v0 hpmem hnd_scores
    have hscoreval : p.2 = fusedScoreW fts vec kc wf wv p.1 := by
      have := scores_get_eq_fusedScoreW fts vec kc wf wv hf hv p.1 hkey
      rw [← hscores] at this
      rw [this] at hget
      exact (Option.some.injEq _ _ ▸ hget).symm
    rw [hfdef] at hfp
    simp only [Option.map_eq_some'] at hfp
    obtain ⟨row, hrow, rfl⟩ := hfp
    have hpayload : payloadRow fts vec p.1 = some row := by
      rw [← data_get_eq_payloadRow fts vec hf p.1, ← hdata]
      exact hrow
    have hrk : row.chunkKey = p.1 := payloadRow_key fts vec p.1 row hpayload
    constructor
    · show p.2 = fusedScoreW fts vec kc wf wv row.chunkKey
      rw [hrk]
      exact hscoreval
    · refine ⟨row, ?_, rfl⟩
      rw [hrk]
      exact hpayload

/-! Index arithmetic on prefixes, used for the rank-ordering claims. -/

theorem indexOf_lt_of_mem_take {α : Type} [DecidableEq α] (l : List α) (n : Nat)
    (a : α) (h : a ∈ l.take n) : l.indexOf a < n := by
  induction l generalizing n with
  | nil => simp at h
  | cons hd tl ih =>
    cases n with
    | zero => simp at h
    | succ n =>
      rw [List.take_succ_cons] at h
      by_cases hk : a = hd
      · subst hk
        rw [List.indexOf_cons_self]
        exact Nat.succ_pos n
      · have hmem : a ∈ tl.take n := by
          rcases List.mem_cons.mp h with h0 | h0
          · exact absurd h0 hk
          · exact h0
        rw [List.indexOf_cons_ne _ (Ne.symm hk)]
        exact Nat.succ_lt_succ (ih n hmem)

theorem mem_take_of_indexOf_lt {α : Type} [DecidableEq α] (l : List α) (n : Nat)
    (a : α) (hmem : a ∈ l) (h : l.indexOf a < n) : a ∈ l.take n := by
  induction l generalizing n with
  | nil => simp at hmem
  | cons hd tl ih =>
    cases n with
    | zero => simp at h
    | succ n =>
      rw [List.take_succ_cons]
      by_cases hk : a = hd
      · subst hk
        exact List.mem_cons_self _ _
      · have hmem2 : a ∈ tl := by
          rcases List.mem_cons.mp hmem with h0 | h0
          · exact absurd h0 hk
          · exact h0
        rw [List.indexOf_cons_ne _ (Ne.symm hk)] at h
        exact List.mem_cons_of_mem _ (ih n hmem2 (Nat.lt_of_succ_lt_succ h))

theorem indexOf_take_eq {α : Type} [DecidableEq α] (l : List α) (n : Nat)
    (a : α) (h : l.indexOf a < n) : (l.take n).indexOf a = l.indexOf a := by
  induction l generalizing n with
  | nil => simp
  | cons hd tl ih =>
    cases n with
    | zero => simp at h
    | succ n =>
      rw [List.take_succ_cons]
      by_cases hk : a = hd
      · subst hk
        rw [List.indexOf_cons_self, List.indexOf_cons_self]
      · rw [List.indexOf_cons_ne _ (Ne.symm hk)] at h ⊢
        rw [List.indexOf_cons_ne _ (Ne.symm hk)]
        rw [ih n (Nat.lt_of_succ_lt_succ h)]

/-- In a list sorted by score descending whose scores are a function of the
key and whose keys are distinct, a strictly larger key score means a strictly
earlier position. -/
theorem sorted_key_index_lt (full : List SearchResult) (g : String → ℚ)
    (hsort : List.Pairwise (fun a b : SearchResult => a.score ≥ b.score) full)
    (hscore : ∀ r ∈ full, r.score = g r.chunkKey)
    (ka kb : String)
    (hka : ka ∈ full.map SearchResult.chunkKey)
    (hkb : kb ∈ full.map SearchResult.chunkKey)
    (hgt : g ka > g kb) :
    (full.map SearchResult.chunkKey).indexOf ka
      < (full.map SearchResult.chunkKey).indexOf kb := by
  have hia : (full.map SearchResult.chunkKey).indexOf ka
      < (full.map SearchResult.chunkKey).length := List.indexOf_lt_length.mpr hka
  have hib : (full.map SearchResult.chunkKey).indexOf kb
      < (full.map SearchResult.chunkKey).length := List.indexOf_lt_length.mpr hkb
  have hia2 : (full.map SearchResult.chunkKey).indexOf ka < full.length := by
    simpa using hia
  have hib2 : (full.map SearchResult.chunkKey).indexOf kb < full.length := by
    simpa using hib
  have hgeta : (full.map SearchResult.chunkKey)[(full.map SearchResult.chunkKey).indexOf ka]
      = ka := List.getElem_indexOf hia
  have hgetb : (full.map SearchResult.chunkKey)[(full.map SearchResult.chunkKey).indexOf kb]
      = kb := List.getElem_indexOf hib
  rw [List.getElem_map] at hgeta hgetb
  by_contra hcon
  push_neg at hcon
  rcases Nat.lt_or_ge ((full.map SearchResult.chunkKey).indexOf kb)
      ((full.map SearchResult.chunkKey).indexOf ka) with hlt | hge
  · have hpw := List.pairwise_iff_getElem.mp hsort
      ((full.map SearchResult.chunkKey).indexOf kb)
      ((full.map SearchResult.chunkKey).indexOf ka) hib2 hia2 hlt
    have hsa := hscore _ (List.getElem_mem hia2)
    have hsb := hscore _ (List.getElem_mem hib2)
    rw [hsa, hgeta] at hpw
    rw [hsb, hgetb] at hpw
    exact absurd hpw (by simpa using hgt)
  · have heq : (full.map SearchResult.chunkKey).indexOf ka
        = (full.map SearchResult.chunkKey).indexOf kb := Nat.le_antisymm hge hcon
    have hkk : ka = kb := (List.indexOf_inj hka hkb).mp heq
    rw [hkk] at hgt
    exact lt_irrefl _ hgt

/-- C4: rrfMerge returns one entry per distinct chunk key of either list,
scored by the weighted reciprocal-rank sum with k = 60, 1-based ranks and
default weights 0.4 (text) and 0.6 (vector); a key present in both lists
keeps the text-side row payload; the output is the fused list sorted by
score descending and truncated to the limit. -/
theorem claim_C4_rrfMerge_fusion (fts vec : List SearchResult) (limit : Nat)
    (hf : (fts.map SearchResult.chunkKey).Nodup)
    (hv : (vec.map SearchResult.chunkKey).Nodup) :
    ∃ full : List SearchResult,
      rrfMerge fts vec limit = full.take limit
      ∧ List.Pairwise (fun a b : SearchResult => a.score ≥ b.score) full
      ∧ (full.map SearchResult.chunkKey).Nodup
      ∧ (∀ key, key ∈ full.map SearchResult.chunkKey ↔
          key ∈ fts.map SearchResult.chunkKey ∨ key ∈ vec.map SearchResult.chunkKey)
      ∧ (∀ r ∈ full, r.score = fusedScore fts vec r.chunkKey
          ∧ ∃ row, payloadRow fts vec r.chunkKey = some row ∧ r = setScore row r.score) := by
  have h := rrfMergeW_characterization fts vec limit 60 (2/5) (3/5) hf hv
  simpa [rrfMerge, fusedScore] using h

/-- C8: in a hybrid (rank-fused) result, a chunk present in both input lists
whose fused score is the full (0.4 + 0.6) / (60 + r) never ranks below a
chunk present in only one list, whose fused score is at most 0.6 / (60 + r):
the former score strictly exceeds the latter, so the descending sort places
the both-lists chunk first whenever the single-list chunk made the cut. -/
theorem claim_C8_both_lists_outrank (fts vec : List SearchResult) (limit : Nat)
    (ka kb : String) (r : ℚ)
    (hf : (fts.map SearchResult.chunkKey).Nodup)
    (hv : (vec.map SearchResult.chunkKey).Nodup)
    (haf : ka ∈ fts.map SearchResult.chunkKey)
    (hav : ka ∈ vec.map SearchResult.chunkKey)
    (hb : (kb ∈ fts.map SearchResult.chunkKey ∧ kb ∉ vec.map SearchResult.chunkKey)
      ∨ (kb ∈ vec.map SearchResult.chunkKey ∧ kb ∉ fts.map SearchResult.chunkKey))
    (hr : 0 ≤ r)
    (hsa : fusedScore fts vec ka = (2/5 + 3/5) / (60 + r))
    (hsb : fusedScore fts vec kb ≤ (3/5) / (60 + r))
    (hmemb : kb ∈ (rrfMerge fts vec limit).map SearchResult.chunkKey) :
    ka ∈ (rrfMerge fts vec limit).map SearchResult.chunkKey
    ∧ ((rrfMerge fts vec limit).map SearchResult.chunkKey).indexOf ka
        < ((rrfMerge fts vec limit).map SearchResult.chunkKey).indexOf kb := by
  obtain ⟨full, heq, hsort, hnd, hmem, hvals⟩ :=
    rrfMergeW_characterization fts vec limit 60 (2/5) (3/5) hf hv
  have heq2 : rrfMerge fts vec limit = full.take limit := heq
  have hkeys : (rrfMerge fts vec limit).map SearchResult.chunkKey
      = (full.map SearchResult.chunkKey).take limit := by
    rw [heq2, List.map_take]
  have hgt : fusedScore fts vec ka > fusedScore fts vec kb := by
    rw [hsa]
    refine lt_of_le_of_lt hsb ?_
    have hpos : (0 : ℚ) < 60 + r := by linarith
    rw [div_lt_div_iff₀ hpos hpos]
    nlinarith
  have hkaf : ka ∈ full.map SearchResult.chunkKey := (hmem ka).mpr (Or.inl haf)
  have hkbf : kb ∈ full.map SearchResult.chunkKey := by
    rw [hkeys] at hmemb
    exact List.mem_of_mem_take hmemb
  have hidx : (full.map SearchResult.chunkKey).indexOf ka
      < (full.map SearchResult.chunkKey).indexOf kb := by
    refine sorted_key_index_lt full (fusedScore fts vec) hsort ?_ ka kb hkaf hkbf hgt
    intro r0 hr0
    exact (hvals r0 hr0).1
  have hib : (full.map SearchResult.chunkKey).indexOf kb < limit := by
    rw [hkeys] at hmemb
    exact indexOf_lt_of_mem_take _ _ _ hmemb
  have hia : (full.map SearchResult.chunkKey).indexOf ka < limit :=
    Nat.lt_trans hidx hib
  refine ⟨?_, ?_⟩
  · rw [hkeys]
    exact mem_take_of_indexOf_lt _ _ _ hkaf hia
  · rw [hkeys, indexOf_take_eq _ _ _ hia, indexOf_take_eq _ _ _ hib]
    exact hidx

/-- Witness for C8: key a heads both lists, key b is second in the text list
only; with r = 1 the fused score of a is exactly 1 / 61 and the score of b,
0.4 / 62, is below 0.6 / 61. -/
theorem claim_C8_both_lists_outrank_witness :
    (((([sampleRow "a", sampleRow "b"]).map SearchResult.chunkKey).Nodup
      ∧ (([sampleRow "a"]).map SearchResult.chunkKey).Nodup)
      ∧ ("a" ∈ ([sampleRow "a", sampleRow "b"]).map SearchResult.chunkKey
        ∧ "a" ∈ ([sampleRow "a"]).map SearchResult.chunkKey)
      ∧ (("b" ∈ ([sampleRow "a", sampleRow "b"]).map SearchResult.chunkKey
          ∧ "b" ∉ ([sampleRow "a"]).map SearchResult.chunkKey)
        ∨ ("b" ∈ ([sampleRow "a"]).map SearchResult.chunkKey
          ∧ "b" ∉ ([sampleRow "a", sampleRow "b"]).map SearchResult.chunkKey))
      ∧ (0 : ℚ) ≤ 1
      ∧ fusedScore [sampleRow "a", sampleRow "b"] [sampleRow "a"] "a" = (2/5 + 3/5) / (60 + 1)
      ∧ fusedScore [sampleRow "a", sampleRow "b"] [sampleRow "a"] "b" ≤ (3/5) / (60 + 1))
    ∧ ("b" ∈ (rrfMerge [sampleRow "a", sampleRow "b"] [sampleRow "a"] 5).map SearchResult.chunkKey
      → "a" ∈ (rrfMerge [sampleRow "a", sampleRow "b"] [sampleRow "a"] 5).map SearchResult.chunkKey
      ∧ ((rrfMerge [sampleRow "a", sampleRow "b"] [sampleRow "a"] 5).map SearchResult.chunkKey).indexOf "a"
          < ((rrfMerge [sampleRow "a", sampleRow "b"] [sampleRow "a"] 5).map SearchResult.chunkKey).indexOf "b") := by
  have hfa : fusedScore [sampleRow "a", sampleRow "b"] [sampleRow "a"] "a" = (2/5 + 3/5) / (60 + 1) := by
    rw [fusedScore, fusedScoreW]
    rw [if_pos (by decide : "a" ∈ ([sampleRow "a", sampleRow "b"]).map SearchResult.chunkKey)]
    rw [if_pos (by decide : "a" ∈ ([sampleRow "a"]).map SearchResult.chunkKey)]
    norm_num [sampleRow, List.indexOf_cons_self]
  have hfb : fusedScore [sampleRow "a", sampleRow "b"] [sampleRow "a"] "b" ≤ (3/5) / (60 + 1) := by
    rw [fusedScore, fusedScoreW]
    rw [if_pos (by decide : "b" ∈ ([sampleRow "a", sampleRow "b"]).map SearchResult.chunkKey)]
    rw [if_neg (by decide : ¬ "b" ∈ ([sampleRow "a"]).map SearchResult.chunkKey)]
    have hidx : (([sampleRow "a", sampleRow "b"]).map SearchResult.chunkKey).indexOf "b" = 1 := by
      decide
    rw [hidx]
    norm_num
  refine ⟨⟨⟨by decide, by decide⟩, ⟨by decide, by decide⟩, Or.inl ⟨by decide, by decide⟩,
    by norm_num, hfa, hfb⟩, ?_⟩
  intro hmemb
  exact claim_C8_both_lists_outrank [sampleRow "a", sampleRow "b"] [sampleRow "a"] 5 "a" "b" 1
    (by decide) (by decide) (by decide) (by decide) (Or.inl ⟨by decide, by decide⟩)
    (by norm_num) hfa hfb hmemb

/-- Witness for C4 at concrete two-element inputs. -/
theorem claim_C4_rrfMerge_fusion_witness :
    ((([sampleRow "a", sampleRow "b"]).map SearchResult.chunkKey).Nodup
      ∧ (([sampleRow "b", sampleRow "c"]).map SearchResult.chunkKey).Nodup)
    ∧ ∃ full : List SearchResult,
      rrfMerge [sampleRow "a", sampleRow "b"] [sampleRow "b", sampleRow "c"] 5 = full.take 5
      ∧ List.Pairwise (fun a b : SearchResult => a.score ≥ b.score) full
      ∧ (full.map SearchResult.chunkKey).Nodup
      ∧ (∀ key, key ∈ full.map SearchResult.chunkKey ↔
          key ∈ ([sampleRow "a", sampleRow "b"]).map SearchResult.chunkKey
          ∨ key ∈ ([sampleRow "b", sampleRow "c"]).map SearchResult.chunkKey)
      ∧ (∀ r ∈ full,
          r.score = fusedScore [sampleRow "a", sampleRow "b"] [sampleRow "b", sampleRow "c"] r.chunkKey
          ∧ ∃ row, payloadRow [sampleRow "a", sampleRow "b"] [sampleRow "b", sampleRow "c"] r.chunkKey = some row
            ∧ r = setScore row r.score) :=
  ⟨⟨by decide, by decide⟩,
    claim_C4_rrfMerge_fusion [sampleRow "a", sampleRow "b"] [sampleRow "b", sampleRow "c"] 5
      (by decide) (by decide)⟩

/-! The threshold step of search (claims C2 and C3). -/

/-- searchImpl is the dispatch followed by one threshold step that runs only
when the threshold is positive. -/
theorem searchImpl_eq_dispatch (ops : StoreOps)
    (embedder : List String → List (List ℚ)) (query : String)
    (opts : SearchOptions) :
    searchImpl ops embedder query opts
      = (if opts.threshold.getD 0 > 0
          then (dispatchResults ops embedder query opts).filter
            (fun r => r.score ≥ opts.threshold.getD 0)
          else dispatchResults ops embedder query opts) := by
  simp only [searchImpl, dispatchResults]
  split_ifs <;> simp_all

/-- C2 counterexample: on the query the a an, whose keyword preprocessing is
empty, hybrid search returns the empty list, although the vector side of the
dispatch is nonempty and its rank fusion with the empty text list keeps the
vector hit; the claim prescribes that nonempty fusion as the result. -/
theorem claim_C2_counterexample :
    searchImpl exampleOpsC2 exampleEmbedder "the a an" (modeOpts SearchMode.hybrid) = []
    ∧ preprocessQuery "the a an" QueryMode.keywords = ""
    ∧ (rrfMerge []
        (exampleOpsC2.vectorSearch ((exampleEmbedder ["the a an"]).getD 0 []) 5 false)
        5).map (fun r => r.chunkKey) = ["v"] :=
  ⟨by decide, by decide, by decide⟩

/-- C2 (amended): when keyword preprocessing of the query yields an empty
string, both the keyword and the hybrid modes return the empty list; the
semantic side is not consulted (src/index.ts line 221 returns before the
mode dispatch). -/
theorem claim_C2_empty_query_returns_empty (ops : StoreOps)
    (embedder : List String → List (List ℚ)) (query : String)
    (opts : SearchOptions)
    (hq : jsTrim (preprocessQuery query QueryMode.keywords) = "")
    (hm : opts.mode = some SearchMode.hybrid ∨ opts.mode = some SearchMode.keyword) :
    searchImpl ops embedder query opts = [] := by
  rcases hm with hm | hm
  · simp [searchImpl, hm, hq]
  · simp [searchImpl, hm, hq]

/-- Witness for the amended C2 at the concrete query the a an in hybrid
mode. -/
theorem claim_C2_empty_query_returns_empty_witness :
    (jsTrim (preprocessQuery "the a an" QueryMode.keywords) = ""
      ∧ ((modeOpts SearchMode.hybrid).mode = some SearchMode.hybrid
        ∨ (modeOpts SearchMode.hybrid).mode = some SearchMode.keyword))
    ∧ searchImpl exampleOpsC2 exampleEmbedder "the a an" (modeOpts SearchMode.hybrid) = [] :=
  ⟨⟨by decide, Or.inl rfl⟩,
    claim_C2_empty_query_returns_empty exampleOpsC2 exampleEmbedder "the a an"
      (modeOpts SearchMode.hybrid) (by decide) (Or.inl rfl)⟩

/-- C3 counterexample: at threshold zero the filter is skipped
(src/index.ts guards it with threshold greater than zero), so a vector hit
at cosine distance 1.5 comes back with the negative score minus one half,
violating score at least threshold. -/
theorem claim_C3_counterexample :
    semanticZeroThreshold.threshold = some 0
    ∧ ∃ r ∈ searchImpl exampleOpsC3 exampleEmbedder "q" semanticZeroThreshold,
        r.score < 0 := by
  refine ⟨rfl, ⟨"/r/a.rs:1:2", "/r/a.rs", "a", "function", "fn a()", "", 1, 2, 1 - 3/2⟩,
    ?_, by norm_num⟩
  norm_num [searchImpl, semanticZeroThreshold, exampleOpsC3, exampleEmbedder, vectorSearchDb,
    exampleDB, exampleDist, exampleChunkRow, sortPairsDesc, List.insertionSort,
    List.orderedInsert]

/-- C3 (amended): the threshold filter is the last step of search but runs
only for a positive threshold: then every returned result scores at least
the threshold and the result is exactly the dispatched list filtered; at
threshold zero the dispatched results are returned unfiltered, so scores
below zero survive. -/
theorem claim_C3_threshold_last_step (ops : StoreOps)
    (embedder : List String → List (List ℚ)) (query : String)
    (opts : SearchOptions) (t : ℚ) (ht : opts.threshold = some t) :
    (0 < t →
      searchImpl ops embedder query opts
        = (dispatchResults ops embedder query opts).filter (fun r => r.score ≥ t)
      ∧ ∀ r ∈ searchImpl ops embedder query opts, t ≤ r.score)
    ∧ (t = 0 →
      searchImpl ops embedder query opts = dispatchResults ops embedder query opts) := by
  constructor
  · intro hpos
    have heq : searchImpl ops embedder query opts
        = (dispatchResults ops embedder query opts).filter (fun r => r.score ≥ t) := by
      rw [searchImpl_eq_dispatch, ht]
      simp only [Option.getD_some]
      rw [if_pos hpos]
    refine ⟨heq, ?_⟩
    intro r hr
    rw [heq] at hr
    have := List.of_mem_filter hr
    simpa using this
  · intro h0
    rw [searchImpl_eq_dispatch, ht, h0]
    simp

/-- Witness for the amended C3 with threshold one half over the example
store. -/
theorem claim_C3_threshold_last_step_witness :
    halfThresholdOpts.threshold = some (1/2)
    ∧ ((0 < (1/2 : ℚ) →
        searchImpl exampleOpsC3 exampleEmbedder "q" halfThresholdOpts
          = (dispatchResults exampleOpsC3 exampleEmbedder "q" halfThresholdOpts).filter
            (fun r => r.score ≥ (1/2 : ℚ))
        ∧ ∀ r ∈ searchImpl exampleOpsC3 exampleEmbedder "q" halfThresholdOpts,
            (1/2 : ℚ) ≤ r.score)
      ∧ ((1/2 : ℚ) = 0 →
        searchImpl exampleOpsC3 exampleEmbedder "q" halfThresholdOpts
          = dispatchResults exampleOpsC3 exampleEmbedder "q" halfThresholdOpts)) :=
  ⟨rfl, claim_C3_threshold_last_step exampleOpsC3 exampleEmbedder "q" halfThresholdOpts
    (1/2) rfl⟩

/-! The search health check (claim C10). -/

/-- Once the flag is set, the health check is a no-op. -/
theorem verifySearchable_true (env : HealthEnv) :
    verifySearchable true env = (true, none) := rfl

/-- The first call sets the flag whatever the environment looks like. -/
theorem verifySearchable_sets_flag (env : HealthEnv) :
    (verifySearchable false env).1 = true := by
  simp only [verifySearchable, Bool.false_eq_true, if_false]
  split_ifs <;> rfl

/-- A verified instance never counts an error. -/
theorem countHealthErrors_true (envs : List HealthEnv) :
    countHealthErrors true envs = 0 := by
  induction envs with
  | nil => rfl
  | cons env rest ih =>
    simp [countHealthErrors, verifySearchable_true, ih]

/-- C10: the unsearchable-database error is raised at most once per
CodeIndex instance: the searchVerified flag is set before the health
conditions are evaluated, so a verified instance never re-checks, any
sequence of searches on one instance raises at most one health error, and
once the flag is set every search proceeds to the query dispatch. -/
theorem claim_C10_health_error_at_most_once :
    (∀ env : HealthEnv, verifySearchable true env = (true, none))
    ∧ (∀ env : HealthEnv, (verifySearchable false env).1 = true)
    ∧ (∀ envs : List HealthEnv, countHealthErrors false envs ≤ 1)
    ∧ (∀ (env : HealthEnv) (ops : StoreOps)
        (embedder : List String → List (List ℚ)) (query : String)
        (opts : SearchOptions),
        searchRun true env ops embedder query opts
          = (true, Except.ok (searchImpl ops embedder query opts))) := by
  refine ⟨verifySearchable_true, verifySearchable_sets_flag, ?_, ?_⟩
  · intro envs
    cases envs with
    | nil => simp [countHealthErrors]
    | cons env rest =>
      have hflag := verifySearchable_sets_flag env
      simp only [countHealthErrors]
      rw [hflag, countHealthErrors_true]
      split <;> simp
  · intro env ops embedder query opts
    rfl

/-! The gitignore-pattern rejection of the scanner (claim C6). -/

/-- C6 counterexample: foo.rs is a supported, non-hidden, nonempty small
regular file and its name is a simple pattern of the root .gitignore; the
claim says the pattern rejects only directories and the file is still
emitted, but the scan of a root holding exactly that file emits nothing. -/
theorem claim_C6_counterexample :
    (detectLanguage "foo.rs").isSome = true
    ∧ (10 ≠ 0 ∧ 10 ≤ 1000000)
    ∧ jsStartsWith "." "foo.rs" = false
    ∧ ALWAYS_IGNORE.contains "foo.rs" = false
    ∧ loadIgnorePatterns "foo.rs" = ["foo.rs"]
    ∧ scanDirectory "/r"
        [FSEntry.file ".gitignore" 7 "foo.rs", FSEntry.file "foo.rs" 10 "fn f(){}"]
        none exampleHash = ([], []) :=
  ⟨by decide, ⟨by decide, by decide⟩, by decide, by decide, by decide, by decide⟩

/-- C6 (amended): a simple gitignore pattern rejects any entry whose name
matches, directory or regular file alike: the pattern check of walker.ts
line 82 runs before the entry kind is inspected, so a matching entry
contributes neither files nor errors to the walk. -/
theorem claim_C6_gitignore_rejects_any_entry (patterns : List String)
    (langFilter : Option (List String)) (hashFn : String → String)
    (e : FSEntry) (rest : List FSEntry) (dir rel : String)
    (h : patterns.contains e.name = true) :
    walkEntries patterns langFilter hashFn (e :: rest) dir rel
      = walkEntries patterns langFilter hashFn rest dir rel := by
  have hskip : walkSkipsName patterns e.name = true := by
    simp only [walkSkipsName, Bool.or_eq_true]
    exact Or.inr (by simpa using h)
  have hhead : walkEntry patterns langFilter hashFn e dir rel = ([], []) := by
    cases e with
    | file name size content =>
      simp only [FSEntry.name] at hskip
      simp [walkEntry, hskip]
    | dir name entries =>
      simp only [FSEntry.name] at hskip
      simp [walkEntry, hskip]
    | baddir name =>
      simp only [FSEntry.name] at hskip
      simp [walkEntry, hskip]
    | badfile name =>
      simp only [FSEntry.name] at hskip
      simp [walkEntry, hskip]
    | other name =>
      simp only [FSEntry.name] at hskip
      simp [walkEntry, hskip]
  simp [walkEntries, hhead]

/-- Witness for the amended C6: a matching regular file contributes
nothing. -/
theorem claim_C6_gitignore_rejects_any_entry_witness :
    (["foo.rs"].contains (FSEntry.file "foo.rs" 10 "fn f(){}").name = true)
    ∧ walkEntries ["foo.rs"] none exampleHash
        [FSEntry.file "foo.rs" 10 "fn f(){}"] "/r" ""
      = walkEntries ["foo.rs"] none exampleHash [] "/r" "" :=
  ⟨by decide,
    claim_C6_gitignore_rejects_any_entry ["foo.rs"] none exampleHash
      (FSEntry.file "foo.rs" 10 "fn f(){}") [] "/r" "" (by decide)⟩

/-! The model-switch re-embedding bug (claim C1).  The embedding phase of
the pipeline sits inside the loop over the batches of changed files
(src/index.ts lines 126 to 166), so an index call that finds every file
unchanged runs zero batches and asks for no stale embeddings at all. -/

/-- C1: indexing an unchanged directory under a new embedding-model string
re-embeds nothing: the run reports embedded = 0 and files = 0 while the
codebase holds one chunk, that chunk keeps the old model tag, and the store
still reports it stale for the new model.  The claim and the spec prescribe
embedded equal to the total chunk count (here one). -/
theorem claim_C1_model_switch_skips_reembedding :
    (indexRun exampleDB "/r" exampleFS none exampleHash exampleChunker
        exampleEmbedder "new" 5).2.embedded = 0
    ∧ (indexRun exampleDB "/r" exampleFS none exampleHash exampleChunker
        exampleEmbedder "new" 5).2.files = 0
    ∧ (indexRun exampleDB "/r" exampleFS none exampleHash exampleChunker
        exampleEmbedder "new" 5).2.skipped = 1
    ∧ codebaseChunkCount (indexRun exampleDB "/r" exampleFS none exampleHash
        exampleChunker exampleEmbedder "new" 5).1 1 = 1
    ∧ ((indexRun exampleDB "/r" exampleFS none exampleHash exampleChunker
        exampleEmbedder "new" 5).1.chunks.map (fun c => c.embeddingModel)) = ["old"]
    ∧ (getStaleEmbeddings (indexRun exampleDB "/r" exampleFS none exampleHash
        exampleChunker exampleEmbedder "new" 5).1 1 "new").length = 1 :=
  ⟨by decide, by decide, by decide, by decide, by decide, by decide⟩

/-! The heterogeneous errors array (claim C9).  scanDirectory pushes plain
strings, but the per-file chunking catch of src/index.ts line 140 pushes an
object with path and error fields into the declared string array. -/

/-- C9: on a run whose single file fails to chunk, the errors array of the
IndexResult holds an object entry, not a string: the declared element type
of IndexResult.errors (string, also in the spec) is violated. -/
theorem claim_C9_chunk_error_is_object :
    (indexRun emptyDB "/r" [FSEntry.file "b.rs" 5 "x"] none (fun _ => "h2")
        failingChunker exampleEmbedder "m" 5).2.errors
      = [IndexError.obj "/r/b.rs" "parse failed"]
    ∧ ∀ s : String, IndexError.obj "/r/b.rs" "parse failed" ≠ IndexError.str s := by
  refine ⟨by decide, ?_⟩
  intro s h
  cases h

/-! The batch-upsert transaction (claim C7). -/

/-- A successful statement run is the sequential application of the
statements. -/
theorem execStmts_ok (oracle : Nat → Bool) (stmts : List (DB → DB)) :
    ∀ (i : Nat) (st st2 : DB), execStmts oracle i stmts st = Except.ok st2 →
      st2 = stmts.foldl (fun s f => f s) st := by
  induction stmts with
  | nil =>
    intro i st st2 h
    simp only [List.foldl]
    exact (Except.ok.inj h).symm
  | cons stmt rest ih =>
    intro i st st2 h
    simp only [execStmts] at h
    by_cases ho : oracle i
    · rw [if_pos ho] at h
      cases h
    · rw [if_neg ho] at h
      simpa [List.foldl] using ih (i + 1) (stmt st) st2 h

/-- Applying the statement sequence of a batch upsert is the per-file
contract of the spec. -/
theorem foldl_batchStmts (cid now : Nat) (fcs : List FileChunks) :
    ∀ db : DB, (batchStmts cid now fcs).foldl (fun s f => f s) db
      = batchUpsertContract db cid fcs now := by
  induction fcs with
  | nil => intro db; rfl
  | cons fc rest ih =>
    intro db
    have hsplit : batchStmts cid now (fc :: rest)
        = ((fun st => dbDeleteChunks st cid fc.filePath)
            :: fc.chunks.map (fun ch => fun st => dbInsertChunkOnConflict st cid ch now)
            ++ [fun st => dbUpsertFileRow st cid fc.filePath fc.fileHash fc.chunks.length now])
          ++ batchStmts cid now rest := rfl
    have hrhs : batchUpsertContract db cid (fc :: rest) now
        = batchUpsertContract
            (dbUpsertFileRow
              (fc.chunks.foldl (fun s ch => dbInsertChunkOnConflict s cid ch now)
                (dbDeleteChunks db cid fc.filePath))
              cid fc.filePath fc.fileHash fc.chunks.length now)
            cid rest now := rfl
    rw [hsplit, List.foldl_append, ih, hrhs]
    congr 1
    simp only [List.foldl_cons, List.foldl_append, List.foldl_map, List.foldl_nil]

/-- The delete statement preserves cleared keys. -/
theorem cleared_delete (st : DB) (cid : Nat) (p k : String)
    (h : chunkKeyCleared st k) : chunkKeyCleared (dbDeleteChunks st cid p) k := by
  intro row hrow hkey
  exact h row (List.mem_filter.mp hrow).1 hkey

/-- The file upsert does not touch the chunks table. -/
theorem dbUpsertFileRow_chunks (db : DB) (cid : Nat) (filePath fileHash : String)
    (chunkCount now : Nat) :
    (dbUpsertFileRow db cid filePath fileHash chunkCount now).chunks = db.chunks := by
  simp only [dbUpsertFileRow]
  split_ifs <;> rfl

/-- The file upsert preserves cleared keys. -/
theorem cleared_upsertFile (st : DB) (cid : Nat) (p h2 : String) (c now : Nat)
    (k : String) (h : chunkKeyCleared st k) :
    chunkKeyCleared (dbUpsertFileRow st cid p h2 c now) k := by
  intro row hrow hkey
  rw [dbUpsertFileRow_chunks] at hrow
  exact h row hrow hkey

/-- The conflict-aware insert clears the embedding of every row carrying the
inserted key: the update branch resets the row, the fresh branch starts with
the schema defaults. -/
theorem insert_clears_self (st : DB) (cid : Nat) (ch : CodeChunk) (now : Nat) :
    chunkKeyCleared (dbInsertChunkOnConflict st cid ch now) ch.chunkKey := by
  intro row hrow hkey
  simp only [dbInsertChunkOnConflict] at hrow
  by_cases hany : st.chunks.any (fun row => row.chunkKey = ch.chunkKey)
  · rw [if_pos hany] at hrow
    simp only [List.mem_map] at hrow
    obtain ⟨r0, _, hr0⟩ := hrow
    by_cases hk0 : r0.chunkKey = ch.chunkKey
    · rw [if_pos hk0] at hr0
      rw [← hr0]
      exact ⟨rfl, rfl⟩
    · rw [if_neg hk0] at hr0
      rw [← hr0] at hkey
      exact absurd hkey hk0
  · rw [if_neg hany] at hrow
    simp only [List.mem_append, List.mem_singleton] at hrow
    rcases hrow with hrow | hrow
    · have hfalse : (st.chunks.any fun row => row.chunkKey = ch.chunkKey) = false :=
        Bool.eq_false_iff.mpr hany
      have := List.any_eq_false.mp hfalse row hrow
      exact absurd (by simpa using hkey) (by simpa using this)
    · rw [hrow]
      exact ⟨rfl, rfl⟩

/-- The conflict-aware insert preserves any cleared key. -/
theorem insert_preserves (st : DB) (cid : Nat) (ch : CodeChunk) (now : Nat)
    (k : String) (h : chunkKeyCleared st k) :
    chunkKeyCleared (dbInsertChunkOnConflict st cid ch now) k := by
  intro row hrow hkey
  simp only [dbInsertChunkOnConflict] at hrow
  by_cases hany : st.chunks.any (fun row => row.chunkKey = ch.chunkKey)
  · rw [if_pos hany] at hrow
    simp only [List.mem_map] at hrow
    obtain ⟨r0, hr0mem, hr0⟩ := hrow
    by_cases hk0 : r0.chunkKey = ch.chunkKey
    · rw [if_pos hk0] at hr0
      rw [← hr0]
      exact ⟨rfl, rfl⟩
    · rw [if_neg hk0] at hr0
      rw [← hr0] at hkey ⊢
      exact h r0 hr0mem hkey
  · rw [if_neg hany] at hrow
    simp only [List.mem_append, List.mem_singleton] at hrow
    rcases hrow with hrow | hrow
    · exact h row hrow hkey
    · rw [hrow]
      exact ⟨rfl, rfl⟩

/-- Folding the inserts of a file preserves any cleared key. -/
theorem insert_fold_preserves (cid now : Nat) (l : List CodeChunk) (k : String) :
    ∀ st : DB, chunkKeyCleared st k →
      chunkKeyCleared (l.foldl (fun s ch => dbInsertChunkOnConflict s cid ch now) st) k := by
  induction l with
  | nil => intro st h; exact h
  | cons c cs ih =>
    intro st h
    exact ih _ (insert_preserves st cid c now k h)

/-- Folding the inserts of a file clears the key of every inserted chunk. -/
theorem insert_fold_clears (cid now : Nat) (l : List CodeChunk) (ch : CodeChunk)
    (hmem : ch ∈ l) :
    ∀ st : DB,
      chunkKeyCleared (l.foldl (fun s c => dbInsertChunkOnConflict s cid c now) st)
        ch.chunkKey := by
  induction l with
  | nil => cases hmem
  | cons c cs ih =>
    intro st
    rcases List.mem_cons.mp hmem with h | h
    · subst h
      exact insert_fold_preserves cid now cs ch.chunkKey _
        (insert_clears_self st cid ch now)
    · exact ih h _

/-- The whole per-file contract preserves any cleared key. -/
theorem contract_preserves (cid now : Nat) (fcs : List FileChunks) (k : String) :
    ∀ st : DB, chunkKeyCleared st k →
      chunkKeyCleared (batchUpsertContract st cid fcs now) k := by
  induction fcs with
  | nil => intro st h; exact h
  | cons fc rest ih =>
    intro st h
    refine ih _ ?_
    refine cleared_upsertFile _ cid fc.filePath fc.fileHash fc.chunks.length now k ?_
    exact insert_fold_preserves cid now fc.chunks k _
      (cleared_delete st cid fc.filePath k h)

/-- The batch-upsert contract leaves every inserted chunk with a cleared
embedding. -/
theorem contract_clears (db : DB) (cid : Nat) (fcs : List FileChunks) (now : Nat) :
    ∀ fc ∈ fcs, ∀ ch ∈ fc.chunks,
      chunkKeyCleared (batchUpsertContract db cid fcs now) ch.chunkKey := by
  induction fcs generalizing db with
  | nil => intro fc h; cases h
  | cons fc0 rest ih =>
    intro fc hfc ch hch
    rcases List.mem_cons.mp hfc with h | h
    · subst h
      show chunkKeyCleared (batchUpsertContract _ cid rest now) ch.chunkKey
      refine contract_preserves cid now rest ch.chunkKey _ ?_
      refine cleared_upsertFile _ cid fc.filePath fc.fileHash fc.chunks.length now _ ?_
      exact insert_fold_clears cid now fc.chunks ch hch _
    · exact ih _ fc h ch hch

/-- C7: batchUpsertAllFileChunks is one transaction: a failing statement
rolls the state back to the snapshot, leaving the chunks and indexed_files
tables unchanged; a successful run produces exactly the per-file contract
of the spec (delete the old chunks of the file, insert the new ones with the
conflict update, upsert the indexed_files row), and every inserted chunk
ends with a NULL embedding and an empty embedding_model. -/
theorem claim_C7_batch_upsert_transaction (oracle : Nat → Bool) (db : DB)
    (cid : Nat) (fcs : List FileChunks) (now : Nat) :
    ((batchUpsertAllFileChunks oracle db cid fcs now).2
      = if ((batchUpsertAllFileChunks oracle db cid fcs now).1).isOk
          then batchUpsertContract db cid fcs now
          else db)
    ∧ (((batchUpsertAllFileChunks oracle db cid fcs now).1).isOk = true →
        ∀ fc ∈ fcs, ∀ ch ∈ fc.chunks,
          chunkKeyCleared (batchUpsertAllFileChunks oracle db cid fcs now).2
            ch.chunkKey) := by
  rcases hex : execStmts oracle 0 (batchStmts cid now fcs) db with e | st2
  · have hval : batchUpsertAllFileChunks oracle db cid fcs now = (Except.error e, db) := by
      simp [batchUpsertAllFileChunks, hex]
    rw [hval]
    constructor
    · rfl
    · intro hok
      exact absurd hok (by simp [Except.isOk, Except.toBool])
  · have hst : st2 = batchUpsertContract db cid fcs now := by
      rw [execStmts_ok oracle (batchStmts cid now fcs) 0 db st2 hex]
      exact foldl_batchStmts cid now fcs db
    have hval : batchUpsertAllFileChunks oracle db cid fcs now
        = (Except.ok (), batchUpsertContract db cid fcs now) := by
      simp [batchUpsertAllFileChunks, hex, hst]
    rw [hval]
    constructor
    · rfl
    · intro _ fc hfc ch hch
      exact contract_clears db cid fcs now fc hfc ch hch

/-- Witness for C7: a one-file, one-chunk batch against the example store
under a never-failing engine. -/
theorem claim_C7_batch_upsert_transaction_witness :
    ((batchUpsertAllFileChunks (fun _ => false) exampleDB 1 [exampleFileChunks] 7).2
      = if ((batchUpsertAllFileChunks (fun _ => false) exampleDB 1
          [exampleFileChunks] 7).1).isOk
          then batchUpsertContract exampleDB 1 [exampleFileChunks] 7
          else exampleDB)
    ∧ (((batchUpsertAllFileChunks (fun _ => false) exampleDB 1
        [exampleFileChunks] 7).1).isOk = true →
        ∀ fc ∈ [exampleFileChunks], ∀ ch ∈ fc.chunks,
          chunkKeyCleared
            (batchUpsertAllFileChunks (fun _ => false) exampleDB 1
              [exampleFileChunks] 7).2 ch.chunkKey) :=
  claim_C7_batch_upsert_transaction (fun _ => false) exampleDB 1 [exampleFileChunks] 7

/-! The oversize-split bound of the chunker (claim C5). -/

/-- The member scan of splitLargeNode finds nothing exactly when the node
has no recognized member children. -/
theorem split_members_empty_iff (tl : List String)
    (fp ln fh : String) (sl : List String) (node : SNode) :
    ((node.children.map (fun sub =>
      if isSubItem tl sub.nodeType then
        [{ chunk := makeChunk fp ln fh sl sub (nodeKind sub.nodeType),
           outer := sub, inner := sub, site := EmitSite.member }]
      else if bodyWrappers.contains sub.nodeType then
        sub.children.filterMap (fun innerNode =>
          if isSubItem tl innerNode.nodeType then
            some { chunk := makeChunk fp ln fh sl innerNode (nodeKind innerNode.nodeType),
                   outer := innerNode, inner := innerNode, site := EmitSite.member }
          else none)
      else ([] : List Emitted))).flatten).isEmpty = true
      ↔ hasRecognizedMember tl node = false := by
  rw [List.isEmpty_iff, List.flatten_eq_nil_iff]
  rw [hasRecognizedMember, List.any_eq_false]
  constructor
  · intro h sub hsub
    have hpiece := h _ (List.mem_map_of_mem _ hsub)
    by_cases h1 : isSubItem tl sub.nodeType
    · rw [if_pos h1] at hpiece
      simp at hpiece
    · rw [if_neg h1] at hpiece
      simp only [Bool.or_eq_true, not_or, Bool.and_eq_true, not_and,
        List.any_eq_true, not_exists]
      refine ⟨h1, ?_⟩
      intro hcont innerNode hinner hitem
      rw [if_pos hcont] at hpiece
      have hnone := List.filterMap_eq_nil_iff.mp hpiece innerNode hinner
      rw [if_pos hitem] at hnone
      simp at hnone
  · intro h piece hpiece
    obtain ⟨sub, hsubmem, rfl⟩ := List.mem_map.mp hpiece
    have hsub := h sub hsubmem
    simp only [Bool.or_eq_true, not_or, Bool.and_eq_true, not_and] at hsub
    rw [if_neg hsub.1]
    by_cases h2 : bodyWrappers.contains sub.nodeType
    · rw [if_pos h2]
      rw [List.filterMap_eq_nil_iff]
      intro innerNode hinner
      have h6 : (sub.children.any fun innerNode =>
          isSubItem tl innerNode.nodeType) = false :=
        Bool.eq_false_iff.mpr (hsub.2 h2)
      rw [List.any_eq_false] at h6
      have hfalse : isSubItem tl innerNode.nodeType = false :=
        Bool.eq_false_iff.mpr (h6 innerNode hinner)
      simp [hfalse]
    · rw [if_neg h2]

/-- Every chunk splitLargeNode emits is a member chunk, or the single
whole-node fallback of a node with no recognized member children. -/
theorem splitLargeNodeI_sites (tl : List String) (fp ln fh : String)
    (sl : List String) (node outerNode : SNode) :
    ∀ e ∈ splitLargeNodeI tl fp ln fh sl node outerNode,
      e.site = EmitSite.member
      ∨ (e.site = EmitSite.unsplit ∧ e.outer = outerNode ∧ e.inner = node
          ∧ hasRecognizedMember tl node = false) := by
  intro e he
  unfold splitLargeNodeI at he
  by_cases hempty : ((node.children.map (fun sub =>
      if isSubItem tl sub.nodeType then
        [{ chunk := makeChunk fp ln fh sl sub (nodeKind sub.nodeType),
           outer := sub, inner := sub, site := EmitSite.member }]
      else if bodyWrappers.contains sub.nodeType then
        sub.children.filterMap (fun innerNode =>
          if isSubItem tl innerNode.nodeType then
            some { chunk := makeChunk fp ln fh sl innerNode (nodeKind innerNode.nodeType),
                   outer := innerNode, inner := innerNode, site := EmitSite.member }
          else none)
      else ([] : List Emitted))).flatten).isEmpty
  · rw [if_pos hempty] at he
    right
    obtain rfl := List.mem_singleton.mp he
    exact ⟨rfl, rfl, rfl, (split_members_empty_iff tl fp ln fh sl node).mp hempty⟩
  · rw [if_neg hempty] at he
    left
    obtain ⟨piece, hpiece, hep⟩ := List.mem_flatten.mp he
    obtain ⟨sub, _, rfl⟩ := List.mem_map.mp hpiece
    by_cases h1 : isSubItem tl sub.nodeType
    · rw [if_pos h1] at hep
      obtain rfl := List.mem_singleton.mp hep
      rfl
    · rw [if_neg h1] at hep
      by_cases h2 : bodyWrappers.contains sub.nodeType
      · rw [if_pos h2] at hep
        obtain ⟨innerNode, _, hsome⟩ := List.mem_filterMap.mp hep
        by_cases h3 : isSubItem tl innerNode.nodeType
        · rw [if_pos h3] at hsome
          obtain rfl := (Option.some.inj hsome)
          rfl
        · rw [if_neg h3] at hsome
          cases hsome
      · rw [if_neg h2] at hep
        cases hep

/-- Every non-member chunk processNode emits for a splittable inner node is
small, or its outer node is oversized with no recognized member children;
this needs the split set to be contained in the top-level set, which holds
for every registered language. -/
theorem processNodeI_split_sites (cfg : LanguageConfig)
    (filePath fileHash : String) (sourceLines : List String) (node : SNode)
    (hsub : ∀ t ∈ cfg.splitNodes, t ∈ cfg.topLevelNodes) :
    ∀ e ∈ processNodeI cfg filePath fileHash sourceLines node,
      e.site ≠ EmitSite.member →
      cfg.splitNodes.contains e.inner.nodeType = true →
      lineSpanOf e.outer ≤ MAX_CHUNK_LINES
        ∨ (MAX_CHUNK_LINES < lineSpanOf e.outer
            ∧ hasRecognizedMember cfg.topLevelNodes e.inner = false) := by
  intro e he hsite hcont
  simp only [processNodeI] at he
  by_cases h1 : node.nodeType = "export_statement"
  · rw [if_pos h1] at he
    cases hu : unwrapExport node with
    | none =>
      rw [hu] at he
      simp at he
    | some inner =>
      rw [hu] at he
      dsimp only at he
      by_cases h2 : cfg.topLevelNodes.contains inner.nodeType
      · rw [if_pos h2] at he
        by_cases h3 : lineSpanOf node ≤ MAX_CHUNK_LINES
            ∨ ¬ cfg.splitNodes.contains inner.nodeType
        · rw [if_pos h3] at he
          obtain rfl := List.mem_singleton.mp he
          rcases h3 with h3 | h3
          · exact Or.inl h3
          · exact absurd hcont h3
        · rw [if_neg h3] at he
          push_neg at h3
          rcases splitLargeNodeI_sites _ _ _ _ _ _ _ e he
            with hm | ⟨_, houter, hinner, hmem⟩
          · exact absurd hm hsite
          · right
            rw [houter, hinner]
            exact ⟨h3.1, hmem⟩
      · rw [if_neg h2] at he
        by_cases h4 : strIncludes inner.nodeType "function"
            || strIncludes inner.nodeType "class"
        · rw [if_pos h4] at he
          obtain rfl := List.mem_singleton.mp he
          have hin : inner.nodeType ∈ cfg.splitNodes := by simpa using hcont
          exact absurd (by simpa using hsub _ hin) h2
        · rw [if_neg h4] at he
          simp at he
  · rw [if_neg h1] at he
    by_cases h5 : node.nodeType = "decorated_definition"
        ∧ (node.childForFieldName "definition").isSome
    · rw [if_pos h5] at he
      cases hd : node.childForFieldName "definition" with
      | none =>
        rw [hd] at he
        simp at he
      | some inner =>
        rw [hd] at he
        dsimp only at he
        by_cases h3 : lineSpanOf node ≤ MAX_CHUNK_LINES
            ∨ ¬ cfg.splitNodes.contains inner.nodeType
        · rw [if_pos h3] at he
          obtain rfl := List.mem_singleton.mp he
          rcases h3 with h3 | h3
          · exact Or.inl h3
          · exact absurd hcont h3
        · rw [if_neg h3] at he
          push_neg at h3
          rcases splitLargeNodeI_sites _ _ _ _ _ _ _ e he
            with hm | ⟨_, houter, hinner, hmem⟩
          · exact absurd hm hsite
          · right
            rw [houter, hinner]
            exact ⟨h3.1, hmem⟩
    · rw [if_neg h5] at he
      by_cases h6 : node.nodeType = "template_declaration"
          ∧ (node.namedChildren.find?
              (fun c => c.nodeType ≠ "template_parameter_list")).isSome
      · rw [if_pos h6] at he
        cases hf : node.namedChildren.find?
            (fun c => c.nodeType ≠ "template_parameter_list") with
        | none =>
          rw [hf] at he
          simp at he
        | some inner =>
          rw [hf] at he
          dsimp only at he
          by_cases h3 : lineSpanOf node ≤ MAX_CHUNK_LINES
              ∨ ¬ cfg.splitNodes.contains inner.nodeType
          · rw [if_pos h3] at he
            obtain rfl := List.mem_singleton.mp he
            rcases h3 with h3 | h3
            · exact Or.inl h3
            · exact absurd hcont h3
          · rw [if_neg h3] at he
            push_neg at h3
            rcases splitLargeNodeI_sites _ _ _ _ _ _ _ e he
              with hm | ⟨_, houter, hinner, hmem⟩
            · exact absurd hm hsite
            · right
              rw [houter, hinner]
              exact ⟨h3.1, hmem⟩
      · rw [if_neg h6] at he
        by_cases h7 : ¬ cfg.topLevelNodes.contains node.nodeType
        · rw [if_pos h7] at he
          simp at he
        · rw [if_neg h7] at he
          by_cases h3 : lineSpanOf node ≤ MAX_CHUNK_LINES
              ∨ ¬ cfg.splitNodes.contains node.nodeType
          · rw [if_pos h3] at he
            obtain rfl := List.mem_singleton.mp he
            rcases h3 with h3 | h3
            · exact Or.inl h3
            · exact absurd hcont h3
          · rw [if_neg h3] at he
            push_neg at h3
            rcases splitLargeNodeI_sites _ _ _ _ _ _ _ e he
              with hm | ⟨_, houter, hinner, hmem⟩
            · exact absurd hm hsite
            · right
              rw [houter, hinner]
              exact ⟨h3.1, hmem⟩

/-- C5 counterexample: for the Python configuration, a 200-line top-level
function (kind not in the splittable set) containing a nested def is emitted
as one 200-line chunk, while it has a recognized member child: the split
bound as stated in the spec fails. -/
theorem claim_C5_counterexample :
    ¬ splitBoundClaim PYTHON "/r/x.py" "def f():" "h" exampleRoot := by
  intro h
  have hlist : chunkFileI "/r/x.py" "def f():" "h" PYTHON exampleRoot
      = [{ chunk := exampleChunkC5, outer := exampleBigFn,
           inner := exampleBigFn, site := EmitSite.whole }] := rfl
  have hmem : ({ chunk := exampleChunkC5, outer := exampleBigFn,
                 inner := exampleBigFn, site := EmitSite.whole } : Emitted)
      ∈ chunkFileI "/r/x.py" "def f():" "h" PYTHON exampleRoot := by
    rw [hlist]
    exact List.mem_singleton.mpr rfl
  have hc := h _ hmem (by decide)
  rcases hc with hc | ⟨_, hc2⟩
  · exact absurd hc (by decide)
  · exact absurd hc2 (by decide)

/-- C5: as stated the split bound fails (claim_C5_counterexample): the
guard exempts splittable kinds, not unsplittable ones.  Amended: every
chunk of chunkFile that is not a member of a split node and whose inner
declaration kind IS in the splittable set spans at most MAX_CHUNK_LINES
lines, or else its outer node spans more and its inner node has no
recognized member children; the amendment needs the splittable set to lie
inside the top-level set, true of every registered language. -/
theorem claim_C5_split_bound (cfg : LanguageConfig)
    (filePath content fileHash : String) (root : SNode)
    (hsub : ∀ t ∈ cfg.splitNodes, t ∈ cfg.topLevelNodes) :
    ∀ e ∈ chunkFileI filePath content fileHash cfg root,
      e.site ≠ EmitSite.member →
      cfg.splitNodes.contains e.inner.nodeType = true →
      lineSpanOf e.outer ≤ MAX_CHUNK_LINES
        ∨ (MAX_CHUNK_LINES < lineSpanOf e.outer
            ∧ hasRecognizedMember cfg.topLevelNodes e.inner = false) := by
  intro e he hsite hcont
  simp only [chunkFileI] at he
  obtain ⟨part, hpart, hep⟩ := List.mem_flatten.mp he
  obtain ⟨child, _, rfl⟩ := List.mem_map.mp hpart
  exact processNodeI_split_sites cfg filePath fileHash
    (splitOnChar (Char.ofNat 10) content) child hsub e hep hsite hcont

/-- Witness for C5: the Python configuration and a six-line top-level
class, emitted whole within the bound. -/
theorem claim_C5_split_bound_witness :
    (∀ t ∈ PYTHON.splitNodes, t ∈ PYTHON.topLevelNodes)
    ∧ ∃ e ∈ chunkFileI "/r/y.py" "class A:" "h" PYTHON exampleRootC5W,
        e.site ≠ EmitSite.member
        ∧ PYTHON.splitNodes.contains e.inner.nodeType = true
        ∧ (lineSpanOf e.outer ≤ MAX_CHUNK_LINES
            ∨ (MAX_CHUNK_LINES < lineSpanOf e.outer
                ∧ hasRecognizedMember PYTHON.topLevelNodes e.inner = false)) := by
  have hsub : ∀ t ∈ PYTHON.splitNodes, t ∈ PYTHON.topLevelNodes := by decide
  have hlist : chunkFileI "/r/y.py" "class A:" "h" PYTHON exampleRootC5W
      = [{ chunk := exampleChunkC5W, outer := exampleSmallClass,
           inner := exampleSmallClass, site := EmitSite.whole }] := rfl
  have hmem : ({ chunk := exampleChunkC5W, outer := exampleSmallClass,
                 inner := exampleSmallClass, site := EmitSite.whole } : Emitted)
      ∈ chunkFileI "/r/y.py" "class A:" "h" PYTHON exampleRootC5W := by
    rw [hlist]
    exact List.mem_singleton.mpr rfl
  refine ⟨hsub, _, hmem, by decide, by decide, ?_⟩
  exact claim_C5_split_bound PYTHON "/r/y.py" "class A:" "h" exampleRootC5W
    hsub _ hmem (by decide) (by decide)

end Codemogger
